import Mathlib

/-!
Verification development for the taskman server (src/server.py).

The task-ledger codec (parse_tasks / save_tasks), the category
normalization helpers, and the snapshot / restore subsystem are embedded
as executable Lean definitions, translated from the Python source.

Modelling conventions, stated once here:
  * Python strings are Lean `String`s; the line-oriented codec works on
    `List Char` internally (a Python `str` is a sequence of characters).
  * Python `str.strip()` and the regex class `\s` both test
    `Py_UNICODE_ISSPACE`; `pyIsSpace` lists that Unicode whitespace set
    explicitly and `pyStripL` mirrors `str.strip()` exactly.
  * `datetime.now().strftime('%Y-%m-%d')` is threaded through as an
    explicit `today : String` parameter; timestamps in snapshot metadata
    are abstracted to integer seconds (`Int`), with `isoformat` /
    `fromisoformat` the identity on that abstraction.
  * Files and directories live in an explicit `FS` record: the task
    ledger is a single optional text blob, the notes tree a list of
    (path, content) pairs, snapshots a list of records.  `None` models a
    missing file.
  * Python dict identity matters in parse_tasks: when a header line falls
    through from the current grammar to the legacy grammar the
    in-progress task dict is appended twice (the same object), and a task
    that was appended early keeps being mutated in place.  Appends of the
    current task are therefore modelled by a pending-emission counter,
    and all pending copies are emitted with the final field values, which
    reproduces the aliasing semantics observably.
-/

namespace Taskman

/-- Python's whitespace character class, shared by `str.strip()` and the
regex `\s` (CPython uses the same Py_UNICODE_ISSPACE predicate for both):
the ASCII whitespace 0x09-0x0D and 0x20, the separators 0x1C-0x1F, NEL
0x85, NBSP 0xA0, and the Unicode space separators 0x1680, 0x2000-0x200A,
0x2028, 0x2029, 0x202F, 0x205F, 0x3000. -/
def pyIsSpace (c : Char) : Bool :=
  decide ((9 ≤ c.toNat ∧ c.toNat ≤ 13) ∨ (28 ≤ c.toNat ∧ c.toNat ≤ 31) ∨
    c.toNat = 32 ∨ c.toNat = 133 ∨ c.toNat = 160 ∨ c.toNat = 5760 ∨
    (8192 ≤ c.toNat ∧ c.toNat ≤ 8202) ∨ c.toNat = 8232 ∨ c.toNat = 8233 ∨
    c.toNat = 8239 ∨ c.toNat = 8287 ∨ c.toNat = 12288)

/-- Python `str.strip()` on a character list. -/
def pyStripL (l : List Char) : List Char :=
  ((l.dropWhile pyIsSpace).reverse.dropWhile pyIsSpace).reverse

/-- Python `str.strip()`. -/
def pyStrip (s : String) : String :=
  String.mk (pyStripL s.toList)

/-- `hasLead pre l` is Python `l.startswith(pre)` on sequences. -/
def hasLead {α : Type} [DecidableEq α] : List α → List α → Bool
  | [], _ => true
  | _ :: _, [] => false
  | p :: ps, c :: cs => p = c && hasLead ps cs

/-- Python `s.split(sep)` for a one-character separator: always returns at
least one (possibly empty) piece; adjacent separators give empty pieces. -/
def splitCharList (sep : Char) : List Char → List (List Char)
  | [] => [[]]
  | c :: rest =>
    match splitCharList sep rest with
    | [] => [[]]
    | g :: gs => if c = sep then [] :: g :: gs else (c :: g) :: gs

/-- Python `sep.join(pieces)` for a one-character separator. -/
def joinChar (sep : Char) : List (List Char) → List Char
  | [] => []
  | [x] => x
  | x :: y :: rest => x ++ sep :: joinChar sep (y :: rest)

/-- Python `s.split(sep)` producing strings. -/
def splitStr (sep : Char) (s : String) : List String :=
  (splitCharList sep s.toList).map String.mk

/-- The format-delimiter class of `re.sub(r'[|()]+', '-', name)`. -/
def isDelimCat (c : Char) : Bool :=
  c = '|' || c = '(' || c = ')'

/-- `re.sub(r'[|()]+', '-', ...)`: every maximal run of `|`, `(`, `)` is
replaced by a single dash.  The boolean argument records whether the
previous character belonged to such a run. -/
def collapseDelims : Bool → List Char → List Char
  | _, [] => []
  | prev, c :: rest =>
    if isDelimCat c then
      if prev then collapseDelims true rest
      else '-' :: collapseDelims true rest
    else c :: collapseDelims false rest

/-- The fixed default category name. -/
def DEFAULT_CATEGORY : String := "default"

/-- src/server.py normalize_category_name: strip, collapse `[|()]+` runs to
a dash, strip leading dashes, strip again.  Non-string inputs (which the
Python code maps to the empty string) do not arise in this model. -/
def normalize_category_name (value : String) : String :=
  let name := pyStripL value.toList
  if name = [] then ""
  else String.mk (pyStripL ((collapseDelims false name).dropWhile (· = '-')))

/-- Python str.lower() as used by the category helpers (char-wise ASCII
lowering). -/
def pyLower (s : String) : String := String.mk (s.toList.map Char.toLower)

/-- A Python value as it reaches the category helpers: `None`, a string
(split on commas), or a list of strings. -/
inductive PyVal where
  | noneV
  | str (s : String)
  | list (l : List String)

/-- The dedup-accumulating loop of normalize_category_list: `seen` holds
the lower-cased names already kept. -/
def cleanCats (seen : List String) : List String → List String
  | [] => []
  | item :: rest =>
    let name := normalize_category_name item
    if name = "" then cleanCats seen rest
    else
      let key := pyLower name
      if seen.contains key then cleanCats seen rest
      else name :: cleanCats (key :: seen) rest

/-- src/server.py normalize_category_list. -/
def normalize_category_list (values : PyVal) : List String :=
  let items : List String :=
    match values with
    | .str s => splitStr ',' s
    | .list l => l
    | .noneV => []
  let cleaned := cleanCats [] items
  if cleaned = [] then [DEFAULT_CATEGORY] else cleaned

/-- The dict comprehension `{cat.lower(): cat for cat in allowed}` keeps the
last entry for a repeated key, so lookup scans from the right. -/
def allowedLookup (allowed : List String) (key : String) : Option String :=
  allowed.reverse.find? (fun cat => pyLower cat = key)

/-- The resolution loop of normalize_task_categories against an allow-list. -/
def resolveAllowed (allowed : List String) (seen : List String) : List String → List String
  | [] => []
  | name :: rest =>
    match allowedLookup allowed (pyLower name) with
    | Option.none => resolveAllowed allowed seen rest
    | Option.some found =>
      let key := pyLower found
      if seen.contains key then resolveAllowed allowed seen rest
      else found :: resolveAllowed allowed (key :: seen) rest

/-- src/server.py normalize_task_categories.  An empty allow-list models the
Python `if not allowed_categories` branch (None or empty). -/
def normalize_task_categories (value : PyVal) (allowed : List String := []) : List String :=
  let normalized := normalize_category_list value
  if allowed = [] then normalized
  else
    let resolved := resolveAllowed allowed [] normalized
    if resolved = [] then [(allowedLookup allowed DEFAULT_CATEGORY).getD DEFAULT_CATEGORY]
    else resolved

/-- src/server.py is_date: `re.match(r'^\d{4}-\d{2}-\d{2}$', value)`.
`\d` is modelled as the ASCII digits (all values reaching it here are
ASCII).  The values tested in the server are single header fields, which
never contain a newline, so the `$`-before-final-newline subtlety of the
Python regex cannot fire and is omitted. -/
def is_date (value : String) : Bool :=
  match value.toList with
  | [a, b, c, d, e, f, g, h, i, j] =>
    a.isDigit && b.isDigit && c.isDigit && d.isDigit && e = '-' &&
    f.isDigit && g.isDigit && h = '-' && i.isDigit && j.isDigit
  | _ => false

/-- A parsed task, mirroring the dict built by parse_tasks.  A missing
`closing_remarks` key is `none`. -/
structure Task where
  id : Nat
  status : String
  priority : String
  date : String
  due_date : Option String
  description : String
  categories : List String
  closing_remarks : Option String
deriving DecidableEq, Repr

/-- Shared matcher for the two header regexes `^\((X+)\)\s+(.+)$` where `X`
is a character class that excludes `)` (for TASK_PATTERN the class is
`[^)]`, for LEGACY_PATTERN it is `\w`).  Greedy matching forces the group
to be the maximal run of class characters after `(`, which must be
nonempty and directly followed by `)`.  For the tail after `)`, greedy
`\s+(.+)$` takes the maximal whitespace run when something follows it;
when the whole tail is whitespace it backtracks one character, so a tail
of two or more whitespace characters matches with the last character as
the description, and a tail of at most one character does not match.
Lines never contain a newline, so `.` matches every remaining character. -/
def matchParenHeader (cls : Char → Bool) (line : List Char) : Option (List Char × List Char) :=
  match line with
  | '(' :: rest =>
    let hdr := rest.takeWhile cls
    match rest.dropWhile cls with
    | ')' :: tail =>
      if hdr = [] then Option.none
      else
        let k := (tail.takeWhile pyIsSpace).length
        if k = 0 then Option.none
        else if k = tail.length then
          if 2 ≤ k then Option.some (hdr, tail.drop (k - 1)) else Option.none
        else Option.some (hdr, tail.drop k)
    | _ => Option.none
  | _ => Option.none

/-- TASK_PATTERN: `^\(([^)]+)\)\s+(.+)$`. -/
def matchTaskPattern (line : List Char) : Option (List Char × List Char) :=
  matchParenHeader (fun c => c != ')') line

/-- Python `\w` on ASCII input. -/
def pyIsWord (c : Char) : Bool :=
  c.isAlphanum || c = '_'

/-- LEGACY_PATTERN: `^\((\w+)\)\s+(.+)$`. -/
def matchLegacyPattern (line : List Char) : Option (List Char × List Char) :=
  matchParenHeader pyIsWord line

/-- The current-grammar task constructor inside parse_tasks, applied when
the header split into at least 3 pipe fields.  Field 4, when present, is
interpreted by shape: empty (after strip) means no due date with the
categories pipe-rejoined from field 5 on; a `YYYY-MM-DD` value is the due
date with categories from field 5 on; anything else means no due date and
fields 4..N pipe-rejoined are the raw categories. -/
def buildCurrentTask (taskId : Nat) (parts : List (List Char)) (desc : List Char) : Task :=
  let dueAndCats : Option String × PyVal :=
    if 4 ≤ parts.length then
      let candidate := pyStripL (parts.getD 3 [])
      if candidate = [] then
        (Option.none,
         if 5 ≤ parts.length then PyVal.str (String.mk (joinChar '|' (parts.drop 4)))
         else PyVal.noneV)
      else if is_date (String.mk candidate) then
        (Option.some (String.mk candidate),
         if 5 ≤ parts.length then PyVal.str (String.mk (joinChar '|' (parts.drop 4)))
         else PyVal.noneV)
      else
        (Option.none, PyVal.str (String.mk (joinChar '|' (parts.drop 3))))
    else (Option.none, PyVal.noneV)
  { id := taskId
    status := String.mk (parts.getD 0 [])
    priority := String.mk (parts.getD 1 [])
    date := String.mk (parts.getD 2 [])
    due_date := dueAndCats.1
    description := String.mk desc
    categories := normalize_task_categories dueAndCats.2
    closing_remarks := Option.none }

/-- The four-space continuation indent. -/
def fourSpaces : List Char := [' ', ' ', ' ', ' ']

/-- The closing-remarks marker without the indent. -/
def remCore : List Char := "[closing_remarks] ".toList

/-- The literal line head `    [closing_remarks] ` (22 characters). -/
def remarkTag : List Char := fourSpaces ++ remCore

/-- Emission of the in-progress task: it has been appended `pending` times
already (dict aliasing) and is appended once more on close, all copies
showing the final field values. -/
def emitCur (cur : Option Task) (pending : Nat) : List Task :=
  match cur with
  | Option.none => []
  | Option.some t => List.replicate (pending + 1) t

/-- The line loop of src/server.py parse_tasks.  State: the remaining
lines, the in-progress task, its pending early-emission count, the
closing-remarks mode flag, and the next task id. -/
def parseLines (today : String) :
    List (List Char) → Option Task → Nat → Bool → Nat → List Task
  | [], cur, pending, _, _ => emitCur cur pending
  | line :: rest, cur, pending, inClosing, taskId =>
    if pyStripL line = [] ∧ cur = Option.none then
      parseLines today rest cur pending inClosing taskId
    else
      match matchTaskPattern line with
      | Option.some (header, desc) =>
        let parts := splitCharList '|' header
        if 3 ≤ parts.length then
          emitCur cur pending ++
            parseLines today rest (Option.some (buildCurrentTask taskId parts desc))
              0 false (taskId + 1)
        else
          -- fewer than 3 pipe fields: the previous task has already been
          -- appended once; the line is retried against the legacy grammar
          match matchLegacyPattern line with
          | Option.some (st, d) =>
            (match cur with
             | Option.none => []
             | Option.some c => List.replicate (pending + 2) c) ++
              parseLines today rest
                (Option.some
                  { id := taskId, status := String.mk st, priority := "normal",
                    date := today, due_date := Option.none,
                    description := String.mk (pyStripL d),
                    categories := [DEFAULT_CATEGORY],
                    closing_remarks := Option.none })
                0 false (taskId + 1)
          | Option.none =>
            -- neither grammar completes: the early append stands, the task
            -- keeps accumulating, and the closing-remarks mode resets
            match cur with
            | Option.none => parseLines today rest Option.none 0 false taskId
            | Option.some c => parseLines today rest (Option.some c) (pending + 1) false taskId
      | Option.none =>
        match matchLegacyPattern line with
        | Option.some (st, d) =>
          -- unreachable in fact (\w+ headers also match [^)]+), kept to
          -- mirror the source structure
          emitCur cur pending ++
            parseLines today rest
              (Option.some
                { id := taskId, status := String.mk st, priority := "normal",
                  date := today, due_date := Option.none,
                  description := String.mk (pyStripL d),
                  categories := [DEFAULT_CATEGORY],
                  closing_remarks := Option.none })
              0 false (taskId + 1)
        | Option.none =>
          match cur with
          | Option.some c =>
            if hasLead fourSpaces line then
              if hasLead remarkTag line then
                parseLines today rest
                  (Option.some { c with closing_remarks := Option.some (String.mk (line.drop 22)) })
                  pending true taskId
              else if inClosing then
                -- when inClosing holds the closing_remarks key is always
                -- present (set on entering the mode); getD is never used
                let rem := (c.closing_remarks.getD "") ++ "\n" ++ String.mk (line.drop 4)
                parseLines today rest
                  (Option.some { c with closing_remarks := Option.some rem })
                  pending inClosing taskId
              else
                let desc := c.description ++ "\n" ++ String.mk (line.drop 4)
                parseLines today rest
                  (Option.some { c with description := desc })
                  pending inClosing taskId
            else parseLines today rest (Option.some c) pending false taskId
          | Option.none => parseLines today rest Option.none pending false taskId

/-- src/server.py parse_tasks on the text content of the ledger file.
`readlines()` splits on newlines and `rstrip('\n')` removes them; when the
content ends in a newline this model sees one extra empty final line,
which the loop treats as a no-op exactly like Python sees no line. -/
def parse_tasks (today : String) (content : String) : List Task :=
  parseLines today (splitCharList '\n' content.toList) Option.none 0 false 0

/-- The header written by save_tasks for one task. -/
def headerChars (t : Task) : List Char :=
  let categories := normalize_task_categories (PyVal.list t.categories)
  let hasDue : Bool := match t.due_date with
    | Option.some s => !(s = "")
    | Option.none => false
  if !categories.isEmpty || hasDue then
    let dueSeg : List Char := match t.due_date with
      | Option.some s => if s = "" then [] else s.toList
      | Option.none => []
    let catSeg : List Char :=
      if !categories.isEmpty then '|' :: joinChar ',' (categories.map String.toList)
      else []
    '(' :: t.status.toList ++ '|' :: t.priority.toList ++ '|' :: t.date.toList ++
      '|' :: dueSeg ++ catSeg ++ [')']
  else
    '(' :: t.status.toList ++ '|' :: t.priority.toList ++ '|' :: t.date.toList ++ [')']

/-- The lines written by save_tasks for one task: header plus first
description line, four-space-indented continuation lines, then the
closing-remarks block when the remarks are a nonempty string. -/
def taskLines (t : Task) : List (List Char) :=
  let descLines := splitCharList '\n' t.description.toList
  let firstLine := headerChars t ++ ' ' :: descLines.headD []
  let contLines := (descLines.drop 1).map (fun l => fourSpaces ++ l)
  let closing := t.closing_remarks.getD ""
  let remLines : List (List Char) :=
    if closing = "" then []
    else
      let rls := splitCharList '\n' closing.toList
      (remarkTag ++ rls.headD []) :: (rls.drop 1).map (fun l => fourSpaces ++ l)
  firstLine :: contLines ++ remLines

/-- Concatenate written lines, each terminated by a newline. -/
def joinFileLines : List (List Char) → List Char
  | [] => []
  | l :: ls => l ++ '\n' :: joinFileLines ls

/-- src/server.py save_tasks: the full text written to the ledger file. -/
def save_tasks (tasksList : List Task) : String :=
  String.mk (joinFileLines ((tasksList.map taskLines).flatten))

/-- The task produced by creating "Buy milk" with no explicit category on
2024-01-15 (status and priority default, categories resolved to the
default category). -/
def buyMilkTask : Task :=
  { id := 0, status := "created", priority := "normal", date := "2024-01-15",
    due_date := Option.none, description := "Buy milk",
    categories := ["default"], closing_remarks := Option.none }

/-- The extended header grammar as the spec words it: status, priority and
date, then the due date (or the empty string) as field 4, followed by the
pipe and the comma-joined category segment. -/
def extendedHeaderChars (t : Task) : List Char :=
  let categories := normalize_task_categories (PyVal.list t.categories)
  let dueSeg : List Char := match t.due_date with
    | Option.some s => if s = "" then [] else s.toList
    | Option.none => []
  '(' :: t.status.toList ++ '|' :: t.priority.toList ++ '|' :: t.date.toList ++
    '|' :: dueSeg ++ ('|' :: joinChar ',' (categories.map String.toList)) ++ [')']

/-- The ledger input exhibiting the header fall-through: a legacy header
line that first matches the current grammar with fewer than 3 pipe
fields. -/
def dupInputLedger : String :=
  "(active|normal|2024-01-01) first\n(closed) second\n"

/-- What the first header of dupInputLedger parses to. -/
def dupFirstTask : Task :=
  { id := 0, status := "active", priority := "normal", date := "2024-01-01",
    due_date := Option.none, description := "first",
    categories := [DEFAULT_CATEGORY], closing_remarks := Option.none }

/-- What the second (legacy) header of dupInputLedger parses to. -/
def dupSecondTask : Task :=
  { id := 1, status := "closed", priority := "normal", date := "2024-05-05",
    due_date := Option.none, description := "second",
    categories := [DEFAULT_CATEGORY], closing_remarks := Option.none }

/-- A one-task ledger whose single category name contains a comma. -/
def commaLedger : List Task :=
  [{ id := 0, status := "created", priority := "normal", date := "2024-01-01",
     due_date := Option.none, description := "x",
     categories := ["a,b"], closing_remarks := Option.none }]

/-- No pipe or parenthesis characters, per the claim's category invariant. -/
def freeOfDelims (s : String) : Bool :=
  s.toList.all (fun ch => !(ch = '|') && !(ch = '(') && !(ch = ')'))

/-- No line-boundary-corrupting control characters in a single-line field. -/
def noCorruptingCtrl (s : String) : Bool :=
  s.toList.all (fun ch => !(ch = '\n') && !(ch = '\r'))

/-- No carriage return (multi-line fields legitimately contain newlines). -/
def noCarriageReturn (s : String) : Bool :=
  s.toList.all (fun ch => !(ch = '\r'))

/-- Case-insensitively pairwise-distinct names. -/
def pairwiseCiDistinct : List String → Bool
  | [] => true
  | c :: rest => rest.all (fun d => !(pyLower d = pyLower c)) && pairwiseCiDistinct rest

/-- Ids are n, n+1, n+2, ... in list order. -/
def idsSequentialFrom : Nat → List Task → Bool
  | _, [] => true
  | n, t :: rest => t.id = n && idsSequentialFrom (n + 1) rest

/-- The data-model invariants exactly as claim C1 states them: categories
free of pipe and parenthesis characters, case-insensitively unique and
non-empty; field values free of control characters that corrupt line
boundaries (newlines are allowed only inside the multi-line description
and closing remarks); ids sequential from 0. -/
def c1ClaimInvariants (ledger : List Task) : Bool :=
  idsSequentialFrom 0 ledger &&
  ledger.all (fun t =>
    !t.categories.isEmpty &&
    t.categories.all (fun c => !(c = "") && freeOfDelims c && noCorruptingCtrl c) &&
    pairwiseCiDistinct t.categories &&
    noCorruptingCtrl t.status && noCorruptingCtrl t.priority && noCorruptingCtrl t.date &&
    noCorruptingCtrl (t.due_date.getD "") &&
    noCarriageReturn t.description && noCarriageReturn (t.closing_remarks.getD ""))

/-- Expected decoding of the header (active|normal|2024-01-01||work). -/
def c4EmptyFieldTask : Task :=
  { id := 0, status := "active", priority := "normal", date := "2024-01-01",
    due_date := Option.none, description := "x",
    categories := ["work"], closing_remarks := Option.none }

/-- Expected decoding of the header (active|normal|2024-01-01|2024-02-01|work). -/
def c4DateFieldTask : Task :=
  { id := 0, status := "active", priority := "normal", date := "2024-01-01",
    due_date := Option.some "2024-02-01", description := "x",
    categories := ["work"], closing_remarks := Option.none }

/-- Expected decoding of the header (active|normal|2024-01-01|work). -/
def c4OtherFieldTask : Task :=
  { id := 0, status := "active", priority := "normal", date := "2024-01-01",
    due_date := Option.none, description := "x",
    categories := ["work"], closing_remarks := Option.none }

/-- Python `int(value)` over the values a JSON config field can hold:
`toInt n` stands for any value on which `int()` returns n (ints, bools,
numeric strings, floats); `noInt` stands for any value on which `int()`
raises TypeError or ValueError (a missing key read as None, non-numeric
strings, lists, objects). -/
inductive RawVal where
  | toInt (n : Int)
  | noInt

/-- src/server.py normalize_int: parse, fall back to the default, then
clamp to the optional minimum and maximum. -/
def normalize_int (value : RawVal) (default : Int)
    (minimum : Option Int) (maximum : Option Int) : Int :=
  let parsed : Int :=
    match value with
    | RawVal.toInt n => n
    | RawVal.noInt => default
  let parsed := match minimum with
    | Option.some m => max m parsed
    | Option.none => parsed
  match maximum with
  | Option.some m => min m parsed
  | Option.none => parsed

/-- The auto_snapshot_interval_seconds field of normalized_storage_config:
default 30, clamped to [0, 86400]. -/
def normalizedAutoSnapshotInterval (value : RawVal) : Int :=
  normalize_int value 30 (Option.some 0) (Option.some 86400)

/-- The snapshot_retention_count field of normalized_storage_config:
default 200, clamped to [10, 5000]. -/
def normalizedSnapshotRetention (value : RawVal) : Int :=
  normalize_int value 200 (Option.some 10) (Option.some 5000)

/-- The storage configuration as used by the snapshot subsystem (the
integer fields are post-normalization values). -/
structure StorageConfig where
  topics_dir : String
  auto_snapshot_enabled : Bool
  auto_snapshot_interval_seconds : Int
  snapshot_retention_count : Nat
deriving DecidableEq, Repr

/-- default_storage_config, restricted to the modelled fields. -/
def default_storage_config : StorageConfig :=
  { topics_dir := "topics", auto_snapshot_enabled := true,
    auto_snapshot_interval_seconds := 30, snapshot_retention_count := 200 }

/-- A notes tree: (path, content) pairs. -/
abbrev Topics := List (String × String)

/-- A snapshot directory.  `tasksMd`/`topicsDir` hold the current-layout
captures; `runnningMd`/`openDir` the legacy-layout names that only old
on-disk snapshots can contain (write_snapshot never writes them).
`created_at` is the metadata timestamp, `none` when the metadata record
is missing or unparseable; `mtime` the directory modification time. -/
structure Snapshot where
  id : String
  mode : String
  trigger : String
  created_at : Option Int
  mtime : Int
  tasksMd : Option String
  runnningMd : Option String
  topicsDir : Option Topics
  openDir : Option Topics
  storage : Option StorageConfig
  categoriesJson : Option (List String)
deriving DecidableEq, Repr

/-- The filesystem state touched by the storage subsystem. -/
structure FS where
  ledger : Option String
  topics : Option Topics
  configFile : Option StorageConfig
  categoriesFile : Option (List String)
  snapshots : List Snapshot
deriving DecidableEq, Repr

/-- src/server.py load_storage_config: read the configuration file,
falling back to the normalized defaults when it is missing. -/
def load_storage_config (fs : FS) : StorageConfig :=
  fs.configFile.getD default_storage_config

/-- Python errors surfaced by the storage subsystem. -/
inductive PyErr where
  | valueError (msg : String)
  | fileNotFound (msg : String)
  | osError (msg : String)
deriving DecidableEq, Repr

deriving instance DecidableEq for Except

/-- The character class of SNAPSHOT_NAME_PATTERN. -/
def snapshotNameChar (c : Char) : Bool :=
  c.isAlphanum || c = '_' || c = '-'

/-- A nonempty run of snapshot-name characters. -/
def snapshotNameCore (l : List Char) : Bool :=
  !l.isEmpty && l.all snapshotNameChar

/-- `re.match(r'^[A-Za-z0-9_-]+$', s)`: in Python, `$` also matches just
before one final newline, so a matching core followed by a single
trailing newline is accepted as well. -/
def pySnapshotNameMatch (s : String) : Bool :=
  let l := s.toList
  snapshotNameCore l || ((l.getLast? == Option.some '\n') && snapshotNameCore l.dropLast)

/-- The collision-probing loop of next_snapshot_id: try base_1, base_2, ...
The fuel is one more than the number of existing directories, which is
always enough for the loop to have terminated in Python. -/
def nextFreeSuffixId (existing : List String) (base : String) : Nat → Nat → String
  | 0, k => base ++ "_" ++ toString k
  | fuel + 1, k =>
    let candidate := base ++ "_" ++ toString k
    if existing.contains candidate then nextFreeSuffixId existing base fuel (k + 1)
    else candidate

/-- src/server.py next_snapshot_id: prefix_timestamp, with an incrementing
numeric suffix probed until the name is free. -/
def next_snapshot_id (existing : List String) (pfx ts : String) : String :=
  let candidate := pfx ++ "_" ++ ts
  if existing.contains candidate then
    nextFreeSuffixId existing candidate (existing.length + 1) 1
  else candidate

/-- Stable insertion keeping larger mtimes first (ties keep earlier
elements first, like Python's stable sort with reverse=True). -/
def insertByMtime (s : Snapshot) : List Snapshot → List Snapshot
  | [] => [s]
  | x :: xs => if x.mtime < s.mtime then s :: x :: xs else x :: insertByMtime s xs

/-- Sort snapshot directories by modification time, newest first. -/
def sortByMtimeDesc : List Snapshot → List Snapshot
  | [] => []
  | x :: xs => insertByMtime x (sortByMtimeDesc xs)

/-- src/server.py enforce_snapshot_retention: sort by mtime descending and
delete everything beyond the retention count.  (The on-disk directory
listing has no meaningful order; the surviving set is what matters.) -/
def enforce_snapshot_retention (config : StorageConfig) (snaps : List Snapshot) : List Snapshot :=
  (sortByMtimeDesc snaps).take config.snapshot_retention_count

/-- The metadata scan of should_create_auto_snapshot: the latest parseable
created_at among snapshots whose metadata mode is auto. -/
def latestAutoCreatedAt (snaps : List Snapshot) : Option Int :=
  snaps.foldl
    (fun acc s =>
      if s.mode = "auto" then
        match s.created_at with
        | Option.some t =>
          match acc with
          | Option.none => Option.some t
          | Option.some m => if m < t then Option.some t else Option.some m
        | Option.none => acc
      else acc)
    Option.none

/-- src/server.py should_create_auto_snapshot. -/
def should_create_auto_snapshot (config : StorageConfig) (now : Int)
    (snaps : List Snapshot) : Bool :=
  if !config.auto_snapshot_enabled then false
  else if config.auto_snapshot_interval_seconds ≤ 0 then true
  else
    match latestAutoCreatedAt snaps with
    | Option.none => true
    | Option.some t => decide (config.auto_snapshot_interval_seconds ≤ now - t)

/-- src/server.py write_snapshot: allocate the directory (exist_ok=False:
an existing directory raises), capture the ledger, configuration and
category files when they exist and the notes tree (empty placeholder when
absent), write metadata, then apply retention pruning. -/
def write_snapshot (now : Int) (snapshot_id mode trigger : String) (fs : FS) :
    Except PyErr (FS × Snapshot) :=
  if (fs.snapshots.map Snapshot.id).contains snapshot_id then
    Except.error (PyErr.osError "snapshot directory already exists")
  else
    let config := load_storage_config fs
    let s : Snapshot :=
      { id := snapshot_id, mode := mode, trigger := trigger,
        created_at := Option.some now, mtime := now,
        tasksMd := fs.ledger, runnningMd := Option.none,
        topicsDir := Option.some (fs.topics.getD []), openDir := Option.none,
        storage := fs.configFile, categoriesJson := fs.categoriesFile }
    let snaps := enforce_snapshot_retention config (fs.snapshots ++ [s])
    Except.ok ({ fs with snapshots := snaps }, s)

/-- src/server.py create_auto_snapshot_if_needed.  `diskFail` injects an
OSError raised by the filesystem during the snapshot attempt (directory
creation or the copies inside write_snapshot); on that error the ledger
and notes are untouched. -/
def create_auto_snapshot_if_needed (diskFail : Bool) (now : Int) (ts trigger : String)
    (fs : FS) : FS × Except PyErr (Option Snapshot) :=
  if diskFail then (fs, Except.error (PyErr.osError "disk failure"))
  else
    let config := load_storage_config fs
    if !(should_create_auto_snapshot config now fs.snapshots) then
      (fs, Except.ok Option.none)
    else
      let sid := next_snapshot_id (fs.snapshots.map Snapshot.id) "auto" ts
      match write_snapshot now sid "auto" trigger fs with
      | Except.error e => (fs, Except.error e)
      | Except.ok (fs2, s) => (fs2, Except.ok (Option.some s))

/-- The application phase of restore_snapshot after the safety backup:
copy the captured ledger over the live one (probing the legacy filename
runnning.md), and in full mode delete and replace the notes tree from the
capture (legacy name open, empty placeholder when absent) and overwrite
the configuration and category files when the snapshot captured them. -/
def applyRestore (snap : Snapshot) (mode : String) (fs1 : FS) : FS :=
  let source_tasks : Option String :=
    match snap.tasksMd with
    | Option.some c => Option.some c
    | Option.none => snap.runnningMd
  let fs2 : FS :=
    match source_tasks with
    | Option.some c => { fs1 with ledger := Option.some c }
    | Option.none => fs1
  if mode = "full" then
    let source_topics : Option Topics :=
      match snap.topicsDir with
      | Option.some t => Option.some t
      | Option.none => snap.openDir
    let fs3 := { fs2 with topics := Option.some (source_topics.getD []) }
    let fs4 :=
      match snap.storage with
      | Option.some c => { fs3 with configFile := Option.some c }
      | Option.none => fs3
    match snap.categoriesJson with
    | Option.some c => { fs4 with categoriesFile := Option.some c }
    | Option.none => fs4
  else fs2

/-- src/server.py restore_snapshot: validate the id and mode, check the
snapshot exists, take the pre-restore safety snapshot, then apply the
captured state per mode. -/
def restore_snapshot (now : Int) (ts : String) (fs : FS) (snapshot_id mode : String) :
    FS × Except PyErr Unit :=
  if !(pySnapshotNameMatch snapshot_id) then
    (fs, Except.error (PyErr.valueError "Invalid snapshot id"))
  else if mode ≠ "revert" ∧ mode ≠ "full" then
    (fs, Except.error (PyErr.valueError "Invalid restore mode"))
  else
    match fs.snapshots.find? (fun s => s.id = snapshot_id) with
    | Option.none => (fs, Except.error (PyErr.fileNotFound "Snapshot not found"))
    | Option.some snap =>
      let backup_id := next_snapshot_id (fs.snapshots.map Snapshot.id) "pre_restore" ts
      match write_snapshot now backup_id "pre-restore" "before-restore" fs with
      | Except.error e => (fs, Except.error e)
      | Except.ok (fs1, _) => (applyRestore snap mode fs1, Except.ok ())

/-- The configuration used in the concrete debounce scenario:
auto-snapshots enabled with a 60-second interval. -/
def cfg60 : StorageConfig :=
  { topics_dir := "topics", auto_snapshot_enabled := true,
    auto_snapshot_interval_seconds := 60, snapshot_retention_count := 200 }

/-- A live filesystem with no snapshots yet. -/
def fsEmpty : FS :=
  { ledger := Option.some "", topics := Option.some [],
    configFile := Option.some cfg60, categoriesFile := Option.some [DEFAULT_CATEGORY],
    snapshots := [] }

/-- The state after the first auto snapshot fires at time 1000. -/
def fsAfterFirstAuto : FS :=
  (create_auto_snapshot_if_needed false 1000 "ts1" "task-create" fsEmpty).1

/-- Concrete snapshots for the retention witness (distinct mtimes). -/
def snapW1 : Snapshot :=
  { id := "w1", mode := "manual", trigger := "manual", created_at := Option.some 1,
    mtime := 1, tasksMd := Option.none, runnningMd := Option.none,
    topicsDir := Option.some [], openDir := Option.none,
    storage := Option.none, categoriesJson := Option.none }

/-- Second retention-witness snapshot. -/
def snapW2 : Snapshot := { snapW1 with id := "w2", mode := "pre-restore", created_at := Option.some 2, mtime := 2 }

/-- Third retention-witness snapshot. -/
def snapW3 : Snapshot := { snapW1 with id := "w3", mode := "auto", created_at := Option.some 3, mtime := 3 }

/-- A configuration retaining at most 10 snapshots (the normalization
minimum). -/
def cfgR10 : StorageConfig := { cfg60 with snapshot_retention_count := 10 }

/-- The snapshot restored from in the concrete restore scenario. -/
def snapTarget : Snapshot :=
  { id := "snap1", mode := "manual", trigger := "manual", created_at := Option.some 10,
    mtime := 10, tasksMd := Option.some "(a|b|c) old\n", runnningMd := Option.none,
    topicsDir := Option.some [], openDir := Option.none,
    storage := Option.none, categoriesJson := Option.none }

/-- The live filesystem of the concrete restore scenario. -/
def fsRestoreDemo : FS :=
  { ledger := Option.some "(a|b|c) live\n",
    topics := Option.some [("topics/n.md", "note")],
    configFile := Option.some cfg60, categoriesFile := Option.some [DEFAULT_CATEGORY],
    snapshots := [snapTarget] }

/-- src/server.py save_categories (the pure part): normalize, then order
with the default category first. -/
def save_categories_list (categories : List String) : List String :=
  let normalized := normalize_category_list (PyVal.list categories)
  DEFAULT_CATEGORY :: normalized.filter (fun cat => pyLower cat ≠ DEFAULT_CATEGORY)

/-- src/server.py load_categories: ensure the file exists (bootstrapping
it with just the default category), read it, and rewrite it through
save_categories, returning the ordered list. -/
def load_categories (fs : FS) : FS × List String :=
  let raw := fs.categoriesFile.getD [DEFAULT_CATEGORY]
  let ordered := save_categories_list raw
  ({ fs with categoriesFile := Option.some ordered }, ordered)

/-- parse_tasks reads the configured ledger file, returning no tasks when
it does not exist. -/
def parseLedger (today : String) (fs : FS) : List Task :=
  match fs.ledger with
  | Option.none => []
  | Option.some content => parse_tasks today content

/-- `max([t['id'] for t in tasks], default=-1) + 1`. -/
def newTaskId (tasks : List Task) : Nat :=
  match tasks.map Task.id with
  | [] => 0
  | l => l.foldl max 0 + 1

/-- The JSON body of POST /api/tasks (absent keys are `none`). -/
structure TaskInput where
  status : Option String
  priority : Option String
  due_date : Option String
  description : Option String
  categories : Option (List String)

/-- src/server.py create_task_api: parse the ledger, attempt the guarding
auto snapshot (aborting with the error when it fails), then build, append
and save the new task. -/
def create_task_api (diskFail : Bool) (now : Int) (ts today : String)
    (data : TaskInput) (fs : FS) : FS × Except PyErr Task :=
  let tasks := parseLedger today fs
  match create_auto_snapshot_if_needed diskFail now ts "task-create" fs with
  | (fs1, Except.error e) => (fs1, Except.error e)
  | (fs1, Except.ok _) =>
    let (fs2, categories) := load_categories fs1
    let new_task : Task :=
      { id := newTaskId tasks,
        status := data.status.getD "created",
        priority := data.priority.getD "normal",
        date := today,
        due_date := data.due_date,
        description := data.description.getD "",
        categories := normalize_task_categories (PyVal.list (data.categories.getD [])) categories,
        closing_remarks := Option.none }
    let tasks2 := tasks ++ [new_task]
    ({ fs2 with ledger := Option.some (save_tasks tasks2) }, Except.ok new_task)

/-- The JSON body of PUT /api/tasks/(id).  The outer Option is key
presence; for due_date and closing_remarks a present key may carry null,
hence the nested Option. -/
structure UpdateInput where
  status : Option String
  priority : Option String
  description : Option String
  due_date : Option (Option String)
  categories : Option (List String)
  closing_remarks : Option (Option String)

/-- The field updates applied by update_task to the found task. -/
def applyUpdate (data : UpdateInput) (categories : List String) (t : Task) : Task :=
  let t1 := { t with status := data.status.getD t.status,
                     priority := data.priority.getD t.priority,
                     description := data.description.getD t.description }
  let t2 := match data.due_date with
    | Option.some v => { t1 with due_date := v }
    | Option.none => t1
  let t3 := match data.categories with
    | Option.some v => { t2 with categories := normalize_task_categories (PyVal.list v) categories }
    | Option.none => t2
  match data.closing_remarks with
  | Option.some v =>
    let val := pyStrip (v.getD "")
    { t3 with closing_remarks := if val = "" then Option.none else Option.some val }
  | Option.none => t3

/-- Mutating the task dict found by id: entries of the parsed list that
share the id are the same Python object (a consequence of the
double-append aliasing), so the in-place mutation is visible at every
occurrence with that id. -/
def updateTasksWithId (task_id : Nat) (f : Task → Task) (tasks : List Task) : List Task :=
  tasks.map (fun t => if t.id = task_id then f t else t)

/-- src/server.py update_task (PUT /api/tasks/(id)): parse, load the
category list, locate the task (404 when absent), attempt the guarding
auto snapshot, then apply the updates and save. -/
def update_task (diskFail : Bool) (now : Int) (ts today : String) (task_id : Nat)
    (data : UpdateInput) (fs : FS) : FS × Except PyErr Task :=
  let tasks := parseLedger today fs
  let (fs1, categories) := load_categories fs
  match tasks.find? (fun t => t.id = task_id) with
  | Option.none => (fs1, Except.error (PyErr.fileNotFound "Task not found"))
  | Option.some target =>
    match create_auto_snapshot_if_needed diskFail now ts "task-update" fs1 with
    | (fs2, Except.error e) => (fs2, Except.error e)
    | (fs2, Except.ok _) =>
      let updated := applyUpdate data categories target
      let tasks2 := updateTasksWithId task_id (fun _ => updated) tasks
      ({ fs2 with ledger := Option.some (save_tasks tasks2) }, Except.ok updated)

/-- src/server.py delete_task (DELETE /api/tasks/(id)): parse, locate the
task (404 when absent), attempt the guarding auto snapshot, then mark the
task deleted and save. -/
def delete_task (diskFail : Bool) (now : Int) (ts today : String) (task_id : Nat)
    (fs : FS) : FS × Except PyErr Task :=
  let tasks := parseLedger today fs
  match tasks.find? (fun t => t.id = task_id) with
  | Option.none => (fs, Except.error (PyErr.fileNotFound "Task not found"))
  | Option.some target =>
    match create_auto_snapshot_if_needed diskFail now ts "task-delete" fs with
    | (fs1, Except.error e) => (fs1, Except.error e)
    | (fs1, Except.ok _) =>
      let deleted := { target with status := "deleted" }
      let tasks2 := updateTasksWithId task_id (fun _ => deleted) tasks
      ({ fs1 with ledger := Option.some (save_tasks tasks2) }, Except.ok deleted)

/-- src/server.py close_task (MCP tool): parse, locate the task (ValueError
when absent), attempt the guarding auto snapshot, then set the status to
closed, record stripped nonempty remarks, and save. -/
def close_task (diskFail : Bool) (now : Int) (ts today : String) (task_id : Nat)
    (closing_remarks : Option String) (fs : FS) : FS × Except PyErr Task :=
  let tasks := parseLedger today fs
  match tasks.find? (fun t => t.id = task_id) with
  | Option.none => (fs, Except.error (PyErr.valueError "task not found"))
  | Option.some target =>
    match create_auto_snapshot_if_needed diskFail now ts "task-close" fs with
    | (fs1, Except.error e) => (fs1, Except.error e)
    | (fs1, Except.ok _) =>
      let newRemarks : Option String :=
        match closing_remarks with
        | Option.some r =>
          if r ≠ "" ∧ pyStrip r ≠ "" then Option.some (pyStrip r) else target.closing_remarks
        | Option.none => target.closing_remarks
      let closed := { target with status := "closed", closing_remarks := newRemarks }
      let tasks2 := updateTasksWithId task_id (fun _ => closed) tasks
      ({ fs1 with ledger := Option.some (save_tasks tasks2) }, Except.ok closed)

/-- `re.sub(r'[^\w\-]', '_', ...)` keeps word characters and dashes. -/
def pySafeNameChar (c : Char) : Bool :=
  c.isAlphanum || c = '_' || c = '-'

/-- The safe_name computation of _create_note_internal:
`re.sub(r'[^\w\-]', '_', (name or 'untitled').strip()) or 'untitled'`. -/
def safeNameOf (name : String) : String :=
  let n0 := if name = "" then "untitled" else name
  let subbed := (pyStripL n0.toList).map (fun c => if pySafeNameChar c then c else '_')
  if subbed = [] then "untitled" else String.mk subbed

/-- Path components of a slash-separated absolute path. -/
def pathComponents (p : String) : List String :=
  (splitCharList '/' p.toList).map String.mk

/-- `os.path.commonpath([base, p]) == base` for normalized absolute paths:
base's components lead p's. -/
def insideBase (base p : String) : Bool :=
  hasLead (pathComponents base) (pathComponents p)

/-- `filepath.lower().endswith('.md')`. -/
def lowerEndsMd (p : String) : Bool :=
  hasLead (".md".toList.reverse) ((pyLower p).toList.reverse)

/-- Everything before the final dot. -/
def dropLastExt (l : List Char) : List Char :=
  ((l.reverse.dropWhile (fun c => c ≠ '.')).drop 1).reverse

/-- `os.path.splitext(f)[0]`: strip the extension after the last dot, where
leading dots of the name never start an extension. -/
def splitextStem (f : String) : String :=
  let l := f.toList
  let lead := l.takeWhile (fun c => c = '.')
  let rest := l.drop lead.length
  if rest.contains '.' then String.mk (lead ++ dropLastExt rest) else f

/-- The note record returned by _create_note_internal. -/
structure NoteInfo where
  filename : String
  name : String
  date : String
  path : String
deriving DecidableEq, Repr

/-- src/server.py _create_note_internal.  Paths are slash-separated
strings already in normalized absolute form (normalize_path is modelled
as the identity on them); `todayTag` is the f-string date tag
year_month_day used for default filenames; note files live in the topics
tree keyed by full path. -/
def create_note_internal (todayTag today : String) (name content : String)
    (filepath : Option String) (fs : FS) : FS × Except PyErr NoteInfo :=
  let config := load_storage_config fs
  let topics_dir := config.topics_dir
  let safe_name := safeNameOf name
  let requested : Option String :=
    match filepath with
    | Option.some "" => Option.none
    | other => other
  match requested with
  | Option.some req =>
    if !(insideBase topics_dir req) then
      (fs, Except.error (PyErr.valueError "Note file must be inside the configured notes folder"))
    else
      let fp := if lowerEndsMd req then req else req ++ ".md"
      let filename := (pathComponents fp).getLastD ""
      let sn := splitextStem filename
      if (fs.topics.getD []).any (fun e => e.1 = fp) then
        (fs, Except.error (PyErr.valueError "Note with this name already exists"))
      else
        ({ fs with topics := Option.some ((fs.topics.getD []) ++ [(fp, content)]) },
         Except.ok { filename := filename, name := sn, date := today, path := fp })
  | Option.none =>
    let filename := todayTag ++ "_" ++ safe_name ++ ".md"
    let fp := topics_dir ++ "/" ++ filename
    if (fs.topics.getD []).any (fun e => e.1 = fp) then
      (fs, Except.error (PyErr.valueError "Note with this name already exists"))
    else
      ({ fs with topics := Option.some ((fs.topics.getD []) ++ [(fp, content)]) },
       Except.ok { filename := filename, name := safe_name, date := today, path := fp })

/-- src/server.py create_note (MCP tool): validate the name, attempt the
guarding auto snapshot, then create the note file. -/
def create_note (diskFail : Bool) (now : Int) (ts todayTag today : String)
    (name content : String) (filepath : Option String) (fs : FS) :
    FS × Except PyErr NoteInfo :=
  let name := pyStrip name
  if name = "" then (fs, Except.error (PyErr.valueError "name is required"))
  else
    match create_auto_snapshot_if_needed diskFail now ts "topic-create" fs with
    | (fs1, Except.error e) => (fs1, Except.error e)
    | (fs1, Except.ok _) =>
      create_note_internal todayTag today name (pyStrip content)
        (match filepath with
         | Option.some "" => Option.none
         | other => other) fs1

/-- Well-formedness of a header field (status, priority, date): free of
the pipe and closing-parenthesis delimiters and of line-breaking control
characters. -/
def wfField (s : String) : Bool :=
  s.toList.all (fun c => !(c = '|') && !(c = ')') && !(c = '\n') && !(c = '\r'))

/-- Well-formedness of a stored category name: nonempty, free of the
delimiter characters collapsed by normalization, of commas (the encode
separator) and of line-breaking control characters, whitespace-trimmed,
and with no leading dash. -/
def wfCatName (c : String) : Bool :=
  !c.toList.isEmpty &&
  c.toList.all (fun ch => !isDelimCat ch && !(ch = ',') && !(ch = '\n') && !(ch = '\r')) &&
  !pyIsSpace (c.toList.headD '.') && !pyIsSpace (c.toList.getLastD '.') &&
  !(c.toList.headD '.' = '-')

/-- Well-formedness of the due date: absent, or exactly YYYY-MM-DD. -/
def wfDue : Option String → Bool
  | Option.none => true
  | Option.some d => is_date d

/-- Well-formedness of the description: the first line is nonempty and
starts with a non-whitespace character, no continuation line starts with
the closing-remarks marker, and no carriage return appears. -/
def wfDesc (s : String) : Bool :=
  let lines := splitCharList '\n' s.toList
  !(lines.headD []).isEmpty &&
  !pyIsSpace ((lines.headD []).headD '.') &&
  (lines.drop 1).all (fun l => !hasLead remCore l) &&
  !s.toList.contains '\r'

/-- Well-formedness of the closing remarks: absent, or a nonempty text
none of whose lines beyond the first starts with the closing-remarks
marker, free of carriage returns. -/
def wfRem : Option String → Bool
  | Option.none => true
  | Option.some r =>
    !(r = "") &&
    ((splitCharList '\n' r.toList).drop 1).all (fun l => !hasLead remCore l) &&
    !r.toList.contains '\r'

/-- Well-formedness of one task for the round-trip law. -/
def wfTask (t : Task) : Bool :=
  wfField t.status && wfField t.priority && wfField t.date &&
  wfDue t.due_date &&
  !t.categories.isEmpty && t.categories.all wfCatName && pairwiseCiDistinct t.categories &&
  wfDesc t.description && wfRem t.closing_remarks

/-- Well-formedness of a ledger: sequential ids from 0 and well-formed
tasks. -/
def wellFormedLedger (ledger : List Task) : Bool :=
  idsSequentialFrom 0 ledger && ledger.all wfTask

/-- The due-date segment written as field 4. -/
def dueSegChars (t : Task) : List Char :=
  match t.due_date with
  | Option.some s => if s = "" then [] else s.toList
  | Option.none => []

/-- The comma-joined category segment written as field 5. -/
def catsChars (t : Task) : List Char :=
  joinChar ',' (t.categories.map String.toList)

/-- The header content between the parentheses, for well-formed tasks. -/
def hdrBody (t : Task) : List Char :=
  t.status.toList ++ '|' :: t.priority.toList ++ '|' :: t.date.toList ++
    '|' :: dueSegChars t ++ '|' :: catsChars t

/-- Start of the closing-remarks mode: the marker line sets the remarks. -/
def withRemStart (c : Task) (l : List Char) : Task :=
  { c with closing_remarks := Option.some (String.mk l) }

/-- A further indented line in closing-remarks mode appends to the
remarks. -/
def withRemAppend (c : Task) (l : List Char) : Task :=
  { c with closing_remarks :=
      Option.some ((c.closing_remarks.getD "") ++ "\n" ++ String.mk l) }

/-- An indented continuation line appends to the description. -/
def withDescAppend (c : Task) (l : List Char) : Task :=
  { c with description := c.description ++ "\n" ++ String.mk l }

/-- The lines written for the closing-remarks block. -/
def remLinesOf (t : Task) : List (List Char) :=
  let closing := t.closing_remarks.getD ""
  if closing = "" then []
  else
    let rls := splitCharList '\n' closing.toList
    (remarkTag ++ rls.headD []) :: (rls.drop 1).map (fun l => fourSpaces ++ l)

/-- The in-progress task right after a well-formed header line is parsed. -/
def initTask (t : Task) (n : Nat) (desc : List Char) : Task :=
  { id := n, status := t.status, priority := t.priority, date := t.date,
    due_date := t.due_date, description := String.mk desc,
    categories := t.categories, closing_remarks := Option.none }

def assembledBase (t : Task) (n : Nat) : Task :=
  { id := n, status := t.status, priority := t.priority, date := t.date,
    due_date := t.due_date, description := t.description,
    categories := t.categories, closing_remarks := Option.none }

def withIds : List Task → Nat → List Task
  | [], _ => []
  | t :: ts, n => { t with id := n } :: withIds ts (n + 1)

/-- A concrete well-formed two-task ledger: extended header with due date
and two categories plus a multi-line description, and a minimal header
with closing remarks spanning two lines. -/
def rtTask0 : Task :=
  { id := 0, status := "active", priority := "high", date := "2024-01-01",
    due_date := Option.some "2024-02-01", description := "first line\nsecond line",
    categories := ["work", "Home"], closing_remarks := Option.none }

def rtTask1 : Task :=
  { id := 1, status := "closed", priority := "normal", date := "2024-01-02",
    due_date := Option.none, description := "another task",
    categories := ["default"], closing_remarks := Option.some "done well\nindeed" }

/-- Normalized category lists are never empty: the cleaning loop falls back
to the default category. -/
theorem normalize_category_list_ne_nil (v : PyVal) : normalize_category_list v ≠ [] := by
  have key : ∀ items : List String,
      (if cleanCats [] items = [] then [DEFAULT_CATEGORY] else cleanCats [] items) ≠ [] := by
    intro items
    split
    · simp
    · next h => exact h
  cases v <;> · unfold normalize_category_list; exact key _

/-- Without an allow-list, normalize_task_categories is
normalize_category_list, hence never empty either. -/
theorem normalize_task_categories_ne_nil (v : PyVal) :
    normalize_task_categories v ≠ [] := by
  unfold normalize_task_categories
  simpa using normalize_category_list_ne_nil v

/-- C2 (counterexample).  The claim states that a task with no due date and
no non-default category selection is written with the minimal 3-field
header, and that a newly created "Buy milk" task is persisted as the
ledger line (created|normal|2024-01-15) Buy milk.  The task "Buy milk"
with the default category and no due date is in fact written with the
extended header (created|normal|2024-01-15||default), not the minimal
form. -/
theorem C2_counterexample :
    buyMilkTask.due_date = Option.none ∧
    buyMilkTask.categories = [DEFAULT_CATEGORY] ∧
    save_tasks [buyMilkTask] = "(created|normal|2024-01-15||default) Buy milk\n" ∧
    save_tasks [buyMilkTask] ≠ "(created|normal|2024-01-15) Buy milk\n" := by
  refine ⟨rfl, rfl, by decide, by decide⟩

/-- C2 (amended).  save_tasks never emits the minimal 3-field header:
normalized categories are never empty, so the extended header — with the
due date or an empty fourth field, followed by the comma-joined category
segment — is written for every task; in particular "Buy milk" with the
default category is persisted as (created|normal|2024-01-15||default)
Buy milk. -/
theorem headerChars_eq_extended (t : Task) : headerChars t = extendedHeaderChars t := by
  unfold headerChars extendedHeaderChars
  have hne := normalize_task_categories_ne_nil (PyVal.list t.categories)
  have hempty : (normalize_task_categories (PyVal.list t.categories)).isEmpty = false := by
    simpa [List.isEmpty_iff] using hne
  simp [hempty]

theorem C2_header_always_extended :
    (∀ t : Task, headerChars t = extendedHeaderChars t) ∧
    save_tasks [buyMilkTask] = "(created|normal|2024-01-15||default) Buy milk\n" := by
  exact ⟨headerChars_eq_extended, by decide⟩

/-- C3.  On the two-line ledger dupInputLedger, the legacy header line
matches TASK_PATTERN with a single pipe field, which appends the
in-progress first task, and then also matches LEGACY_PATTERN, which
appends it again: parse_tasks returns three entries, the first task
twice, with id fields 0, 0, 1 — not one task per header line with
sequential ids. -/
theorem C3_header_fallthrough_double_append :
    parse_tasks "2024-05-05" dupInputLedger = [dupFirstTask, dupFirstTask, dupSecondTask] ∧
    (parse_tasks "2024-05-05" dupInputLedger).map Task.id = [0, 0, 1] := by
  constructor <;> decide

/-- C1 (counterexample).  The ledger commaLedger satisfies every invariant
the claim lists — its one category "a,b" contains no pipe, parenthesis or
control character, is unique and non-empty, and the id is 0 — yet
decoding its encoding does not return it: the comma-joined category field
is split on commas when parsed back, so the single category "a,b" comes
back as the two categories "a" and "b". -/
theorem C1_counterexample :
    c1ClaimInvariants commaLedger = true ∧
    parse_tasks "2024-01-01" (save_tasks commaLedger) ≠ commaLedger := by
  constructor <;> decide

/-- C4.  Field 4 of a pipe-delimited header with at least 4 fields is
interpreted by shape: an empty (stripped) field 4 yields no due date with
the raw categories pipe-rejoined from field 5 onward; a field 4 whose
stripped value matches YYYY-MM-DD becomes the due date with categories
from field 5 onward; any other non-empty field 4 yields no due date with
fields 4..N pipe-rejoined as the raw categories.  Concretely, the three
headers of the claim decode as stated. -/
theorem C4_due_field_shape :
    (∀ (n : Nat) (parts : List (List Char)) (desc : List Char),
      4 ≤ parts.length →
      (pyStripL (parts.getD 3 []) = [] →
        (buildCurrentTask n parts desc).due_date = Option.none ∧
        (buildCurrentTask n parts desc).categories =
          normalize_task_categories
            (if 5 ≤ parts.length then PyVal.str (String.mk (joinChar '|' (parts.drop 4)))
             else PyVal.noneV)) ∧
      (pyStripL (parts.getD 3 []) ≠ [] →
        is_date (String.mk (pyStripL (parts.getD 3 []))) = true →
        (buildCurrentTask n parts desc).due_date =
          Option.some (String.mk (pyStripL (parts.getD 3 []))) ∧
        (buildCurrentTask n parts desc).categories =
          normalize_task_categories
            (if 5 ≤ parts.length then PyVal.str (String.mk (joinChar '|' (parts.drop 4)))
             else PyVal.noneV)) ∧
      (pyStripL (parts.getD 3 []) ≠ [] →
        is_date (String.mk (pyStripL (parts.getD 3 []))) = false →
        (buildCurrentTask n parts desc).due_date = Option.none ∧
        (buildCurrentTask n parts desc).categories =
          normalize_task_categories (PyVal.str (String.mk (joinChar '|' (parts.drop 3)))))) ∧
    parse_tasks "2024-03-01" "(active|normal|2024-01-01||work) x" = [c4EmptyFieldTask] ∧
    parse_tasks "2024-03-01" "(active|normal|2024-01-01|2024-02-01|work) x" = [c4DateFieldTask] ∧
    parse_tasks "2024-03-01" "(active|normal|2024-01-01|work) x" = [c4OtherFieldTask] := by
  refine ⟨?_, by decide, by decide, by decide⟩
  intro n parts desc h4
  refine ⟨?_, ?_, ?_⟩
  · intro hempty
    constructor <;> (simp only [buildCurrentTask]; split_ifs <;> simp_all)
  · intro hne hdate
    constructor <;> (simp only [buildCurrentTask]; split_ifs <;> simp_all)
  · intro hne hdate
    constructor <;> (simp only [buildCurrentTask]; split_ifs <;> simp_all)

/-- C4 (witness for the general part): concrete fields exercising the
quantified statement; the first branch is applied at a header with an
empty field 4 and a fifth field. -/
theorem C4_due_field_shape_witness :
    4 ≤ ([['a'], ['b'], ['c'], [], ['w']] : List (List Char)).length ∧
    (buildCurrentTask 0 [['a'], ['b'], ['c'], [], ['w']] ['x']).due_date = Option.none := by
  refine ⟨by decide, ?_⟩
  have h := (C4_due_field_shape.1 0 [['a'], ['b'], ['c'], [], ['w']] ['x']
    (by decide)).1 (by decide)
  exact h.1

/-- C10.  normalized_storage_config clamps auto_snapshot_interval_seconds
into [0, 86400] and snapshot_retention_count into [10, 5000] for every
raw value, and a value int() cannot parse (missing, null, non-numeric)
falls back to the defaults 30 and 200; no configuration input can set a
retention count below 10 or an interval above one day. -/
theorem C10_config_clamping :
    (∀ v : RawVal,
      0 ≤ normalizedAutoSnapshotInterval v ∧ normalizedAutoSnapshotInterval v ≤ 86400 ∧
      10 ≤ normalizedSnapshotRetention v ∧ normalizedSnapshotRetention v ≤ 5000) ∧
    normalizedAutoSnapshotInterval RawVal.noInt = 30 ∧
    normalizedSnapshotRetention RawVal.noInt = 200 := by
  refine ⟨?_, by decide, by decide⟩
  intro v
  cases v <;>
    simp only [normalizedAutoSnapshotInterval, normalizedSnapshotRetention, normalize_int] <;>
    omega

/-- C7.  With auto-snapshot enabled and a normalized (non-negative)
interval, should_create_auto_snapshot returns true exactly when the
interval is 0, or no auto-tagged snapshot metadata exists, or the latest
auto created_at is at least the interval before now.  Consequently, with
interval 60, a trigger 10 seconds after the first auto snapshot creates
nothing (one snapshot in total) while a trigger 70 seconds after it
creates a second one. -/
theorem C7_debounce_policy :
    (∀ (config : StorageConfig) (now : Int) (snaps : List Snapshot),
      config.auto_snapshot_enabled = true →
      0 ≤ config.auto_snapshot_interval_seconds →
      (should_create_auto_snapshot config now snaps = true ↔
        config.auto_snapshot_interval_seconds = 0 ∨
        latestAutoCreatedAt snaps = Option.none ∨
        (∃ t, latestAutoCreatedAt snaps = Option.some t ∧
          config.auto_snapshot_interval_seconds ≤ now - t))) ∧
    fsAfterFirstAuto.snapshots.length = 1 ∧
    (create_auto_snapshot_if_needed false 1010 "ts2" "task-create" fsAfterFirstAuto).2 =
      Except.ok Option.none ∧
    (create_auto_snapshot_if_needed false 1010 "ts2" "task-create" fsAfterFirstAuto).1.snapshots.length = 1 ∧
    (create_auto_snapshot_if_needed false 1070 "ts3" "task-create" fsAfterFirstAuto).1.snapshots.length = 2 := by
  refine ⟨?_, by decide, by decide, by decide, by decide⟩
  intro config now snaps henabled hnonneg
  simp only [should_create_auto_snapshot, henabled, Bool.not_true, Bool.false_eq_true,
    if_false]
  by_cases hz : config.auto_snapshot_interval_seconds ≤ 0
  · have hzero : config.auto_snapshot_interval_seconds = 0 := le_antisymm hz hnonneg
    simp [hz, hzero]
  · simp only [hz, if_false]
    cases hlatest : latestAutoCreatedAt snaps with
    | none => simp
    | some t =>
      constructor
      · intro hdec
        refine Or.inr (Or.inr ⟨t, rfl, ?_⟩)
        exact of_decide_eq_true hdec
      · intro h
        rcases h with h0 | hnone | ⟨u, hu, hle⟩
        · exact absurd (le_of_eq h0) hz
        · exact absurd hnone (by simp)
        · cases hu
          exact decide_eq_true hle

/-- C7 (witness): the debounce predicate applied at a concrete enabled
configuration with no snapshots. -/
theorem C7_debounce_policy_witness :
    cfg60.auto_snapshot_enabled = true ∧
    should_create_auto_snapshot cfg60 1000 [] = true := by
  refine ⟨rfl, ?_⟩
  exact (C7_debounce_policy.1 cfg60 1000 [] rfl (by decide)).mpr (Or.inr (Or.inl rfl))

theorem insertByMtime_perm (s : Snapshot) (l : List Snapshot) :
    List.Perm (insertByMtime s l) (s :: l) := by
  induction l with
  | nil => exact List.Perm.refl _
  | cons x xs ih =>
    unfold insertByMtime
    split
    · exact List.Perm.refl _
    · exact List.Perm.trans (List.Perm.cons x ih) (List.Perm.swap s x xs)

theorem sortByMtimeDesc_perm (l : List Snapshot) :
    List.Perm (sortByMtimeDesc l) l := by
  induction l with
  | nil => exact List.Perm.refl _
  | cons x xs ih =>
    exact List.Perm.trans (insertByMtime_perm x (sortByMtimeDesc xs)) (List.Perm.cons x ih)

theorem mem_insertByMtime {a s : Snapshot} {l : List Snapshot} :
    a ∈ insertByMtime s l ↔ a = s ∨ a ∈ l :=
  (insertByMtime_perm s l).mem_iff.trans (by simp)

theorem sorted_insertByMtime (s : Snapshot) (l : List Snapshot)
    (h : List.Pairwise (fun a b => b.mtime ≤ a.mtime) l) :
    List.Pairwise (fun a b => b.mtime ≤ a.mtime) (insertByMtime s l) := by
  induction l with
  | nil => simp [insertByMtime]
  | cons x xs ih =>
    rcases List.pairwise_cons.mp h with ⟨hx, hxs⟩
    unfold insertByMtime
    split
    · next hlt =>
      refine List.pairwise_cons.mpr ⟨?_, h⟩
      intro b hb
      rcases List.mem_cons.mp hb with hb | hb
      · exact le_of_lt (hb ▸ hlt)
      · exact le_trans (hx b hb) (le_of_lt hlt)
    · next hge =>
      refine List.pairwise_cons.mpr ⟨?_, ih hxs⟩
      intro b hb
      rcases mem_insertByMtime.mp hb with hb | hb
      · exact hb ▸ le_of_not_lt hge
      · exact hx b hb

theorem sorted_sortByMtimeDesc (l : List Snapshot) :
    List.Pairwise (fun a b => b.mtime ≤ a.mtime) (sortByMtimeDesc l) := by
  induction l with
  | nil => exact List.Pairwise.nil
  | cons x xs ih => exact sorted_insertByMtime x (sortByMtimeDesc xs) ih

/-- In a descending list with pairwise-distinct mtimes, an element is kept
by `take k` exactly when fewer than k elements have a strictly larger
mtime. -/
theorem mem_take_sorted_iff :
    ∀ (l : List Snapshot) (k : Nat) (s : Snapshot),
      List.Pairwise (fun a b => b.mtime ≤ a.mtime) l →
      List.Pairwise (fun a b => a.mtime ≠ b.mtime) l →
      s ∈ l →
      (s ∈ l.take k ↔ l.countP (fun x => decide (s.mtime < x.mtime)) < k) := by
  intro l
  induction l with
  | nil => intro k s _ _ h; cases h
  | cons a t ih =>
    intro k s hsorted hdist hmem
    rcases List.pairwise_cons.mp hsorted with ⟨hle, hsorted'⟩
    rcases List.pairwise_cons.mp hdist with ⟨hne, hdist'⟩
    cases k with
    | zero => simp
    | succ k =>
      rcases List.mem_cons.mp hmem with rfl | hmem'
      · have hcount : (s :: t).countP (fun x => decide (s.mtime < x.mtime)) = 0 := by
          rw [List.countP_eq_zero]
          intro x hx
          rcases List.mem_cons.mp hx with rfl | hx'
          · simp
          · simpa using not_lt_of_le (hle x hx')
        simp [hcount, List.take_succ_cons]
      · have hlt : s.mtime < a.mtime :=
          lt_of_le_of_ne (hle s hmem') (fun h => hne s hmem' h.symm)
        have hcount : (a :: t).countP (fun x => decide (s.mtime < x.mtime)) =
            t.countP (fun x => decide (s.mtime < x.mtime)) + 1 := by
          rw [List.countP_cons]
          simp [hlt]
        have hsa : s ≠ a := by
          intro h; exact absurd (h ▸ hlt) (lt_irrefl _)
        rw [List.take_succ_cons, List.mem_cons, hcount]
        constructor
        · intro h
          rcases h with h | h
          · exact absurd h hsa
          · exact Nat.succ_lt_succ ((ih k s hsorted' hdist' hmem').mp h)
        · intro h
          exact Or.inr ((ih k s hsorted' hdist' hmem').mpr (Nat.lt_of_succ_lt_succ h))

/-- C8.  Retention pruning after snapshot creation: the surviving count is
exactly the retention bound (when exceeded; everything survives
otherwise); with pairwise-distinct modification times a snapshot survives
precisely when fewer than the retention count are more recently modified
— a criterion that never looks at the snapshot's mode, so manual and
pre-restore snapshots are evicted on the same footing as automatic ones;
and write_snapshot applies exactly this pruning to the directory set it
leaves behind. -/
theorem C8_retention_prunes_oldest :
    (∀ (config : StorageConfig) (snaps : List Snapshot),
      (enforce_snapshot_retention config snaps).length =
        min config.snapshot_retention_count snaps.length) ∧
    (∀ (config : StorageConfig) (snaps : List Snapshot) (s : Snapshot),
      List.Pairwise (fun a b => a.mtime ≠ b.mtime) snaps →
      s ∈ snaps →
      (s ∈ enforce_snapshot_retention config snaps ↔
        snaps.countP (fun x => decide (s.mtime < x.mtime)) <
          config.snapshot_retention_count)) ∧
    (∀ (now : Int) (sid mode trigger : String) (fs fs2 : FS) (s : Snapshot),
      write_snapshot now sid mode trigger fs = Except.ok (fs2, s) →
      fs2.snapshots = enforce_snapshot_retention (load_storage_config fs) (fs.snapshots ++ [s])) := by
  refine ⟨?_, ?_, ?_⟩
  · intro config snaps
    unfold enforce_snapshot_retention
    rw [List.length_take, (sortByMtimeDesc_perm snaps).length_eq]
  · intro config snaps s hdist hmem
    have hperm := sortByMtimeDesc_perm snaps
    have hdist' : List.Pairwise (fun a b => a.mtime ≠ b.mtime) (sortByMtimeDesc snaps) :=
      (hperm.pairwise_iff (fun h => h.symm)).mpr hdist
    have hmem' : s ∈ sortByMtimeDesc snaps := hperm.mem_iff.mpr hmem
    have hcount := hperm.countP_eq (fun x => decide (s.mtime < x.mtime))
    unfold enforce_snapshot_retention
    rw [mem_take_sorted_iff (sortByMtimeDesc snaps) config.snapshot_retention_count s
      (sorted_sortByMtimeDesc snaps) hdist' hmem', hcount]
  · intro now sid mode trigger fs fs2 s h
    unfold write_snapshot at h
    split at h
    · exact absurd h (by simp)
    · rw [Except.ok.injEq, Prod.mk.injEq] at h
      rcases h with ⟨h1, h2⟩
      rw [← h1]
      rw [← h2]

/-- C8 (witness): the survival criterion applied to a concrete oldest
snapshot, and write_snapshot's pruning equation at a concrete call. -/
theorem C8_retention_witness :
    (snapW1 ∈ enforce_snapshot_retention cfgR10 [snapW1, snapW2, snapW3] ↔
      ([snapW1, snapW2, snapW3].countP (fun x => decide (snapW1.mtime < x.mtime)) <
        cfgR10.snapshot_retention_count)) ∧
    ((create_auto_snapshot_if_needed false 1000 "ts1" "task-create" fsEmpty).1.snapshots =
      enforce_snapshot_retention (load_storage_config fsEmpty)
        (fsEmpty.snapshots ++ [(create_auto_snapshot_if_needed false 1000 "ts1" "task-create" fsEmpty).1.snapshots.headD snapW1])) := by
  constructor
  · exact C8_retention_prunes_oldest.2.1 cfgR10 [snapW1, snapW2, snapW3] snapW1
      (by decide) (by decide)
  · exact C8_retention_prunes_oldest.2.2 1000 "auto_ts1" "auto" "task-create" fsEmpty
      (create_auto_snapshot_if_needed false 1000 "ts1" "task-create" fsEmpty).1
      ((create_auto_snapshot_if_needed false 1000 "ts1" "task-create" fsEmpty).1.snapshots.headD snapW1)
      (by decide)

theorem applyRestore_snapshots (snap : Snapshot) (mode : String) (fs1 : FS) :
    (applyRestore snap mode fs1).snapshots = fs1.snapshots := by
  simp only [applyRestore]
  repeat' split
  all_goals rfl

theorem applyRestore_revert (snap : Snapshot) (fs1 : FS) :
    (applyRestore snap "revert" fs1).topics = fs1.topics ∧
    (applyRestore snap "revert" fs1).configFile = fs1.configFile ∧
    (applyRestore snap "revert" fs1).categoriesFile = fs1.categoriesFile := by
  simp only [applyRestore]
  repeat' split
  all_goals simp_all

/-- Destructuring a successful restore: the pre-restore safety snapshot it
created, with its captured state, its fresh id, the resulting snapshot
set, and the frame facts for revert mode. -/
theorem restore_ok_cases (now : Int) (ts : String) (fs : FS) (snapshot_id mode : String)
    (fs2 : FS) (h : restore_snapshot now ts fs snapshot_id mode = (fs2, Except.ok ())) :
    ∃ s : Snapshot, s.mode = "pre-restore" ∧ s.trigger = "before-restore" ∧
      s.created_at = Option.some now ∧ s.tasksMd = fs.ledger ∧
      s.id ∉ fs.snapshots.map Snapshot.id ∧
      fs2.snapshots = enforce_snapshot_retention (load_storage_config fs) (fs.snapshots ++ [s]) ∧
      (mode = "revert" → fs2.topics = fs.topics ∧ fs2.configFile = fs.configFile ∧
        fs2.categoriesFile = fs.categoriesFile) := by
  unfold restore_snapshot at h
  by_cases hname : pySnapshotNameMatch snapshot_id = true
  case neg =>
    rw [Bool.not_eq_true] at hname
    simp [hname] at h
  case pos =>
  rw [hname] at h
  simp only [Bool.not_true] at h
  rw [if_neg (by simp)] at h
  by_cases hvm : mode ≠ "revert" ∧ mode ≠ "full"
  · rw [if_pos hvm] at h
    simp at h
  · rw [if_neg hvm] at h
    cases hfind : fs.snapshots.find? (fun s => s.id = snapshot_id) with
    | none =>
      rw [hfind] at h
      simp at h
    | some snap =>
      rw [hfind] at h
      cases hw : write_snapshot now
          (next_snapshot_id (fs.snapshots.map Snapshot.id) "pre_restore" ts)
          "pre-restore" "before-restore" fs with
      | error e =>
        rw [hw] at h
        simp at h
      | ok p =>
        obtain ⟨fs1, s0⟩ := p
        rw [hw] at h
        have hfs2 : applyRestore snap mode fs1 = fs2 := congrArg Prod.fst h
        unfold write_snapshot at hw
        split at hw
        · simp at hw
        · next hfresh =>
          rw [Except.ok.injEq, Prod.mk.injEq] at hw
          obtain ⟨hw1, hw2⟩ := hw
          refine ⟨s0, ?_, ?_, ?_, ?_, ?_, ?_, ?_⟩
          · rw [← hw2]
          · rw [← hw2]
          · rw [← hw2]
          · rw [← hw2]
          · rw [← hw2]
            simpa using hfresh
          · rw [← hfs2, applyRestore_snapshots, ← hw1, ← hw2]
          · intro hmode
            rw [← hfs2, hmode]
            have hframe := applyRestore_revert snap fs1
            refine ⟨?_, ?_, ?_⟩
            · rw [hframe.1, ← hw1]
            · rw [hframe.2.1, ← hw1]
            · rw [hframe.2.2, ← hw1]

/-- C5.  restore_snapshot rejects an id that fails the filesystem-safe
pattern with a validation error, rejects a mode outside revert/full with
a validation error, and reports a missing snapshot directory with a
not-found error, leaving the filesystem — snapshots included — untouched
in all three cases; every successful restore creates exactly one new
pre-restore snapshot, with a previously unused id, capturing the live
ledger as it was before the restore modified it. -/
theorem C5_restore_validation_and_backup :
    (∀ (now : Int) (ts : String) (fs : FS) (sid mode : String),
      pySnapshotNameMatch sid = false →
      restore_snapshot now ts fs sid mode =
        (fs, Except.error (PyErr.valueError "Invalid snapshot id"))) ∧
    (∀ (now : Int) (ts : String) (fs : FS) (sid mode : String),
      pySnapshotNameMatch sid = true → mode ≠ "revert" → mode ≠ "full" →
      restore_snapshot now ts fs sid mode =
        (fs, Except.error (PyErr.valueError "Invalid restore mode"))) ∧
    (∀ (now : Int) (ts : String) (fs : FS) (sid mode : String),
      pySnapshotNameMatch sid = true → (mode = "revert" ∨ mode = "full") →
      fs.snapshots.find? (fun s => s.id = sid) = Option.none →
      restore_snapshot now ts fs sid mode =
        (fs, Except.error (PyErr.fileNotFound "Snapshot not found"))) ∧
    (∀ (now : Int) (ts : String) (fs : FS) (sid mode : String) (fs2 : FS),
      restore_snapshot now ts fs sid mode = (fs2, Except.ok ()) →
      ∃ s : Snapshot, s.mode = "pre-restore" ∧ s.created_at = Option.some now ∧
        s.tasksMd = fs.ledger ∧ s.id ∉ fs.snapshots.map Snapshot.id ∧
        fs2.snapshots =
          enforce_snapshot_retention (load_storage_config fs) (fs.snapshots ++ [s])) := by
  refine ⟨?_, ?_, ?_, ?_⟩
  · intro now ts fs sid mode h
    unfold restore_snapshot
    simp [h]
  · intro now ts fs sid mode h hr hf
    unfold restore_snapshot
    simp [h, hr, hf]
  · intro now ts fs sid mode h hmode hfind
    have hvm : ¬(mode ≠ "revert" ∧ mode ≠ "full") := by
      rcases hmode with rfl | rfl <;> simp
    unfold restore_snapshot
    simp [h, hvm, hfind]
  · intro now ts fs sid mode fs2 h
    rcases restore_ok_cases now ts fs sid mode fs2 h with
      ⟨s, hsm, _, hca, htm, hfresh, hsnaps, _⟩
    exact ⟨s, hsm, hca, htm, hfresh, hsnaps⟩

/-- C5 (witness): all four branches of the theorem exercised at concrete
inputs; the successful revert restore of snap1 yields the pre-restore
backup. -/
theorem C5_restore_witness :
    restore_snapshot 100 "20240101_000000" fsRestoreDemo "bad id" "revert" =
      (fsRestoreDemo, Except.error (PyErr.valueError "Invalid snapshot id")) ∧
    restore_snapshot 100 "20240101_000000" fsRestoreDemo "snap1" "weird" =
      (fsRestoreDemo, Except.error (PyErr.valueError "Invalid restore mode")) ∧
    restore_snapshot 100 "20240101_000000" fsRestoreDemo "nosuch" "revert" =
      (fsRestoreDemo, Except.error (PyErr.fileNotFound "Snapshot not found")) ∧
    (∃ s : Snapshot, s.mode = "pre-restore" ∧ s.created_at = Option.some 100 ∧
      s.tasksMd = fsRestoreDemo.ledger ∧
      s.id ∉ fsRestoreDemo.snapshots.map Snapshot.id ∧
      (restore_snapshot 100 "20240101_000000" fsRestoreDemo "snap1" "revert").1.snapshots =
        enforce_snapshot_retention (load_storage_config fsRestoreDemo)
          (fsRestoreDemo.snapshots ++ [s])) := by
  refine ⟨?_, ?_, ?_, ?_⟩
  · exact C5_restore_validation_and_backup.1 100 "20240101_000000" fsRestoreDemo
      "bad id" "revert" (by decide)
  · exact C5_restore_validation_and_backup.2.1 100 "20240101_000000" fsRestoreDemo
      "snap1" "weird" (by decide) (by decide) (by decide)
  · exact C5_restore_validation_and_backup.2.2.1 100 "20240101_000000" fsRestoreDemo
      "nosuch" "revert" (by decide) (Or.inl rfl) (by decide)
  · exact C5_restore_validation_and_backup.2.2.2 100 "20240101_000000" fsRestoreDemo
      "snap1" "revert"
      (restore_snapshot 100 "20240101_000000" fsRestoreDemo "snap1" "revert").1
      (by decide)

/-- C9.  A successful revert-mode restore leaves the live notes tree, the
storage configuration file and the categories file unchanged (only the
ledger — and the snapshot set, through the safety backup and retention —
are touched). -/
theorem C9_revert_frame :
    ∀ (now : Int) (ts : String) (fs : FS) (sid : String) (fs2 : FS),
      restore_snapshot now ts fs sid "revert" = (fs2, Except.ok ()) →
      fs2.topics = fs.topics ∧ fs2.configFile = fs.configFile ∧
        fs2.categoriesFile = fs.categoriesFile := by
  intro now ts fs sid fs2 h
  rcases restore_ok_cases now ts fs sid "revert" fs2 h with
    ⟨_, _, _, _, _, _, _, hframe⟩
  exact hframe rfl

/-- C6.  When the filesystem raises during the automatic-snapshot attempt,
every mutating operation — task create, update, delete and close, and
note create — returns an error and does not persist its mutation: the
ledger (and for note creation also the notes tree) is exactly what it was
before the call. -/
theorem C6_auto_snapshot_fail_closed :
    (∀ (now : Int) (ts today : String) (data : TaskInput) (fs : FS),
      (∃ e, (create_task_api true now ts today data fs).2 = Except.error e) ∧
      (create_task_api true now ts today data fs).1.ledger = fs.ledger) ∧
    (∀ (now : Int) (ts today : String) (task_id : Nat) (data : UpdateInput) (fs : FS),
      (∃ e, (update_task true now ts today task_id data fs).2 = Except.error e) ∧
      (update_task true now ts today task_id data fs).1.ledger = fs.ledger) ∧
    (∀ (now : Int) (ts today : String) (task_id : Nat) (fs : FS),
      (∃ e, (delete_task true now ts today task_id fs).2 = Except.error e) ∧
      (delete_task true now ts today task_id fs).1.ledger = fs.ledger) ∧
    (∀ (now : Int) (ts today : String) (task_id : Nat) (cr : Option String) (fs : FS),
      (∃ e, (close_task true now ts today task_id cr fs).2 = Except.error e) ∧
      (close_task true now ts today task_id cr fs).1.ledger = fs.ledger) ∧
    (∀ (now : Int) (ts todayTag today name content : String) (fp : Option String) (fs : FS),
      (∃ e, (create_note true now ts todayTag today name content fp fs).2 = Except.error e) ∧
      (create_note true now ts todayTag today name content fp fs).1.topics = fs.topics ∧
      (create_note true now ts todayTag today name content fp fs).1.ledger = fs.ledger) := by
  refine ⟨?_, ?_, ?_, ?_, ?_⟩
  · intro now ts today data fs
    simp [create_task_api, create_auto_snapshot_if_needed]
  · intro now ts today task_id data fs
    unfold update_task
    cases hfind : (parseLedger today fs).find? (fun t => t.id = task_id) <;>
      simp [hfind, create_auto_snapshot_if_needed, load_categories]
  · intro now ts today task_id fs
    unfold delete_task
    cases hfind : (parseLedger today fs).find? (fun t => t.id = task_id) <;>
      simp [hfind, create_auto_snapshot_if_needed]
  · intro now ts today task_id cr fs
    unfold close_task
    cases hfind : (parseLedger today fs).find? (fun t => t.id = task_id) <;>
      simp [hfind, create_auto_snapshot_if_needed]
  · intro now ts todayTag today name content fp fs
    unfold create_note
    by_cases hname : pyStrip name = "" <;>
      simp [hname, create_auto_snapshot_if_needed]

/-- C9 (witness): the frame property at the concrete successful revert
restore of snap1. -/
theorem C9_revert_frame_witness :
    (restore_snapshot 100 "20240101_000000" fsRestoreDemo "snap1" "revert").1.topics =
      fsRestoreDemo.topics ∧
    (restore_snapshot 100 "20240101_000000" fsRestoreDemo "snap1" "revert").1.configFile =
      fsRestoreDemo.configFile ∧
    (restore_snapshot 100 "20240101_000000" fsRestoreDemo "snap1" "revert").1.categoriesFile =
      fsRestoreDemo.categoriesFile :=
  C9_revert_frame 100 "20240101_000000" fsRestoreDemo "snap1"
    (restore_snapshot 100 "20240101_000000" fsRestoreDemo "snap1" "revert").1
    (by decide)

/-!
Round-trip machinery for C1: utility lemmas about the split/join and
prefix helpers, fixpoint lemmas for category normalization, and the
line-by-line analysis of parse_tasks over the output of save_tasks. -/
theorem mk_toList (s : String) : String.mk s.toList = s := by
  cases s
  rfl

theorem toList_append (a b : String) : (a ++ b).toList = a.toList ++ b.toList :=
  String.data_append a b

theorem toList_mk (l : List Char) : (String.mk l).toList = l := rfl

theorem splitCharList_cons (sep c : Char) (rest : List Char) :
    splitCharList sep (c :: rest) =
      match splitCharList sep rest with
      | [] => [[]]
      | g :: gs => if c = sep then [] :: g :: gs else (c :: g) :: gs := rfl

theorem splitCharList_ne_nil (sep : Char) (l : List Char) : splitCharList sep l ≠ [] := by
  induction l with
  | nil => simp [splitCharList]
  | cons c rest ih =>
    rw [splitCharList_cons]
    cases hr : splitCharList sep rest with
    | nil => exact absurd hr ih
    | cons g gs => by_cases hcs : c = sep <;> simp [hcs]

theorem splitCharList_cons_sep (sep : Char) (r : List Char) :
    splitCharList sep (sep :: r) = [] :: splitCharList sep r := by
  rw [splitCharList_cons]
  cases hr : splitCharList sep r with
  | nil => exact absurd hr (splitCharList_ne_nil sep r)
  | cons g gs => simp

theorem splitCharList_cons_ne (sep c : Char) (r : List Char) (h : c ≠ sep) :
    splitCharList sep (c :: r) =
      (c :: (splitCharList sep r).headD []) :: (splitCharList sep r).tail := by
  rw [splitCharList_cons]
  cases hr : splitCharList sep r with
  | nil => exact absurd hr (splitCharList_ne_nil sep r)
  | cons g gs => simp [h]

theorem splitCharList_append (sep : Char) (l r : List Char) (h : sep ∉ l) :
    splitCharList sep (l ++ sep :: r) = l :: splitCharList sep r := by
  induction l with
  | nil => simpa using splitCharList_cons_sep sep r
  | cons c cs ih =>
    have hc : c ≠ sep := fun hc => h (hc ▸ List.mem_cons_self c cs)
    have hcs : sep ∉ cs := fun hm => h (List.mem_cons_of_mem c hm)
    rw [List.cons_append, splitCharList_cons_ne sep c _ hc, ih hcs]
    simp

theorem splitCharList_no_sep (sep : Char) (l : List Char) (h : sep ∉ l) :
    splitCharList sep l = [l] := by
  induction l with
  | nil => rfl
  | cons c cs ih =>
    have hc : c ≠ sep := fun hc => h (hc ▸ List.mem_cons_self c cs)
    have hcs : sep ∉ cs := fun hm => h (List.mem_cons_of_mem c hm)
    rw [splitCharList_cons_ne sep c cs hc, ih hcs]
    simp

theorem joinChar_cons_cons (sep : Char) (x y : List Char) (ls : List (List Char)) :
    joinChar sep (x :: y :: ls) = x ++ sep :: joinChar sep (y :: ls) := rfl

theorem joinChar_splitCharList (sep : Char) (l : List Char) :
    joinChar sep (splitCharList sep l) = l := by
  induction l with
  | nil => rfl
  | cons c rest ih =>
    by_cases hc : c = sep
    · subst hc
      rw [splitCharList_cons_sep]
      cases hr : splitCharList c rest with
      | nil => exact absurd hr (splitCharList_ne_nil c rest)
      | cons g gs =>
        rw [joinChar_cons_cons]
        rw [hr] at ih
        simp [ih]
    · rw [splitCharList_cons_ne sep c rest hc]
      cases hr : splitCharList sep rest with
      | nil => exact absurd hr (splitCharList_ne_nil sep rest)
      | cons g gs =>
        rw [hr] at ih
        cases gs with
        | nil =>
          simp only [List.headD_cons, List.tail_cons]
          simp only [joinChar] at ih ⊢
          simp [ih]
        | cons g2 gs2 =>
          simp only [List.headD_cons, List.tail_cons]
          rw [joinChar_cons_cons] at ih ⊢
          simp [← ih]

theorem mem_joinChar {c : Char} {sep : Char} :
    ∀ {ls : List (List Char)}, c ∈ joinChar sep ls → c = sep ∨ ∃ l ∈ ls, c ∈ l := by
  intro ls
  induction ls with
  | nil => intro h; cases h
  | cons x ys ih =>
    intro h
    cases ys with
    | nil =>
      exact Or.inr ⟨x, List.mem_cons_self _ _, h⟩
    | cons y rest =>
      rw [joinChar_cons_cons] at h
      rcases List.mem_append.mp h with hx | hx
      · exact Or.inr ⟨x, List.mem_cons_self _ _, hx⟩
      · rcases List.mem_cons.mp hx with rfl | hx
        · exact Or.inl rfl
        · rcases ih hx with h1 | ⟨l, hl, hcl⟩
          · exact Or.inl h1
          · exact Or.inr ⟨l, List.mem_cons_of_mem _ hl, hcl⟩

theorem splitCharList_piece_no_sep (sep : Char) (l : List Char) :
    ∀ piece ∈ splitCharList sep l, sep ∉ piece := by
  induction l with
  | nil =>
    intro piece hp
    simp [splitCharList] at hp
    simp [hp]
  | cons c rest ih =>
    intro piece hp
    by_cases hc : c = sep
    · subst hc
      rw [splitCharList_cons_sep] at hp
      rcases List.mem_cons.mp hp with rfl | hp
      · simp
      · exact ih piece hp
    · rw [splitCharList_cons_ne sep c rest hc] at hp
      rcases List.mem_cons.mp hp with rfl | hp
      · intro hmem
        rcases List.mem_cons.mp hmem with rfl | hmem
        · exact hc rfl
        · cases hh : splitCharList sep rest with
          | nil => exact absurd hh (splitCharList_ne_nil sep rest)
          | cons g gs =>
            rw [hh] at hmem
            exact ih g (hh ▸ List.mem_cons_self g gs) (by simpa using hmem)
      · cases hh : splitCharList sep rest with
        | nil => exact absurd hh (splitCharList_ne_nil sep rest)
        | cons g gs =>
          rw [hh] at hp
          exact ih piece (hh ▸ List.mem_cons_of_mem g (by simpa using hp))

theorem hasLead_append_self {α : Type} [DecidableEq α] (x y : List α) :
    hasLead x (x ++ y) = true := by
  induction x with
  | nil => rfl
  | cons a t ih => simp [hasLead, ih]

theorem hasLead_append_left {α : Type} [DecidableEq α] (x y z : List α) :
    hasLead (x ++ y) (x ++ z) = hasLead y z := by
  induction x with
  | nil => rfl
  | cons a t ih => simp [hasLead, ih]

theorem takeWhile_append_stop (p : Char → Bool) (l : List Char) (x : Char) (r : List Char)
    (hl : ∀ c ∈ l, p c = true) (hx : p x = false) :
    (l ++ x :: r).takeWhile p = l ∧ (l ++ x :: r).dropWhile p = x :: r := by
  induction l with
  | nil => simp [List.takeWhile, List.dropWhile, hx]
  | cons a t ih =>
    have ha : p a = true := hl a (List.mem_cons_self a t)
    have ht : ∀ c ∈ t, p c = true := fun c hc => hl c (List.mem_cons_of_mem a hc)
    rcases ih ht with ⟨ih1, ih2⟩
    constructor
    · simp [List.takeWhile_cons, ha, ih1]
    · simp [List.dropWhile_cons, ha, ih2]

theorem pyStripL_nil : pyStripL [] = [] := rfl

theorem pyStripL_of_ends (l : List Char)
    (hh : pyIsSpace (l.headD '.') = false) (hl : pyIsSpace (l.getLastD '.') = false) :
    pyStripL l = l := by
  cases l with
  | nil => rfl
  | cons a t =>
    simp only [List.headD_cons] at hh
    unfold pyStripL
    rw [List.dropWhile_cons]
    simp only [hh]
    rw [if_neg (by simp)]
    have hlast : pyIsSpace ((a :: t).reverse.headD '.') = false := by
      rw [List.headD_eq_head?]
      rw [List.head?_reverse]
      rw [← List.getLastD_eq_getLast?]
      exact hl
    cases hr : (a :: t).reverse with
    | nil => simp at hr
    | cons b u =>
      rw [hr] at hlast
      simp only [List.headD_cons] at hlast
      rw [List.dropWhile_cons]
      simp only [hlast]
      rw [if_neg (by simp)]
      rw [← hr, List.reverse_reverse]

theorem pyStripL_ne_nil_of_head (c : Char) (l : List Char) (h : pyIsSpace c = false) :
    pyStripL (c :: l) ≠ [] := by
  unfold pyStripL
  rw [List.dropWhile_cons]
  simp only [h]
  rw [if_neg (by simp)]
  intro hcon
  have : (c :: l).reverse.dropWhile pyIsSpace = [] := by
    simpa using congrArg List.reverse hcon
  have hmem : c ∈ (c :: l).reverse := by simp
  have hall := List.dropWhile_eq_nil_iff.mp this
  have := hall c hmem
  rw [h] at this
  simp at this

theorem collapseDelims_id (l : List Char) (h : ∀ c ∈ l, isDelimCat c = false) :
    ∀ b, collapseDelims b l = l := by
  induction l with
  | nil => intro b; rfl
  | cons c rest ih =>
    intro b
    have hc : isDelimCat c = false := h c (List.mem_cons_self c rest)
    have hrest : ∀ d ∈ rest, isDelimCat d = false :=
      fun d hd => h d (List.mem_cons_of_mem c hd)
    unfold collapseDelims
    simp [hc, ih hrest false]

theorem wfCatName_spec (c : String) (h : wfCatName c = true) :
    c.toList ≠ [] ∧
    (∀ ch ∈ c.toList, isDelimCat ch = false ∧ ch ≠ ',' ∧ ch ≠ '\n' ∧ ch ≠ '\r') ∧
    pyIsSpace (c.toList.headD '.') = false ∧ pyIsSpace (c.toList.getLastD '.') = false ∧
    c.toList.headD '.' ≠ '-' := by
  unfold wfCatName at h
  simp only [Bool.and_eq_true, List.all_eq_true, Bool.not_eq_true',
    decide_eq_false_iff_not] at h
  obtain ⟨⟨⟨⟨hne, hall⟩, hh⟩, hl⟩, hd⟩ := h
  refine ⟨by simpa [List.isEmpty_iff] using hne, ?_, hh, hl, hd⟩
  intro ch hch
  obtain ⟨⟨⟨h1, h2⟩, h3⟩, h4⟩ := hall ch hch
  exact ⟨h1, h2, h3, h4⟩

theorem normalize_category_name_id (c : String) (h : wfCatName c = true) :
    normalize_category_name c = c := by
  obtain ⟨hne, hall, hh, hl, hd⟩ := wfCatName_spec c h
  have hstrip : pyStripL c.toList = c.toList := pyStripL_of_ends c.toList hh hl
  unfold normalize_category_name
  rw [hstrip]
  rw [if_neg hne]
  have hcoll : collapseDelims false c.toList = c.toList :=
    collapseDelims_id c.toList (fun ch hch => (hall ch hch).1) false
  rw [hcoll]
  have hdrop : c.toList.dropWhile (fun ch => ch = '-') = c.toList := by
    cases hc : c.toList with
    | nil => rfl
    | cons a t =>
      rw [List.dropWhile_cons]
      rw [hc] at hd
      simp only [List.headD_cons] at hd
      simp [hd]
  rw [hdrop, hstrip, mk_toList]

theorem pairwiseCiDistinct_cons (c : String) (rest : List String)
    (h : pairwiseCiDistinct (c :: rest) = true) :
    (∀ d ∈ rest, pyLower d ≠ pyLower c) ∧ pairwiseCiDistinct rest = true := by
  unfold pairwiseCiDistinct at h
  simp only [Bool.and_eq_true, List.all_eq_true, Bool.not_eq_true',
    decide_eq_false_iff_not] at h
  exact h

theorem cleanCats_id (cats : List String) :
    ∀ seen : List String,
      (∀ c ∈ cats, wfCatName c = true) →
      pairwiseCiDistinct cats = true →
      (∀ c ∈ cats, pyLower c ∉ seen) →
      cleanCats seen cats = cats := by
  induction cats with
  | nil => intro seen _ _ _; rfl
  | cons c rest ih =>
    intro seen hwf hdist hseen
    have hc : wfCatName c = true := hwf c (List.mem_cons_self c rest)
    have hcid : normalize_category_name c = c := normalize_category_name_id c hc
    have hcne : c ≠ "" := by
      intro hc0
      have := (wfCatName_spec c hc).1
      rw [hc0] at this
      exact this rfl
    have hnotin : (seen.contains (pyLower c)) = false := by
      have := hseen c (List.mem_cons_self c rest)
      simpa using this
    obtain ⟨hd1, hd2⟩ := pairwiseCiDistinct_cons c rest hdist
    unfold cleanCats
    rw [hcid]
    rw [if_neg hcne]
    simp only [hnotin, Bool.false_eq_true, if_false]
    congr 1
    apply ih (pyLower c :: seen) (fun d hd => hwf d (List.mem_cons_of_mem c hd)) hd2
    intro d hd
    intro hmem
    rcases List.mem_cons.mp hmem with heq | hmem'
    · exact hd1 d hd heq
    · exact hseen d (List.mem_cons_of_mem c hd) hmem'

theorem normalize_category_list_of_wf (cats : List String)
    (hne : cats ≠ [])
    (hwf : ∀ c ∈ cats, wfCatName c = true)
    (hdist : pairwiseCiDistinct cats = true) :
    normalize_category_list (PyVal.list cats) = cats := by
  unfold normalize_category_list
  have hclean : cleanCats [] cats = cats :=
    cleanCats_id cats [] hwf hdist (by intro c _ h; cases h)
  simp only [hclean]
  rw [if_neg hne]

theorem normalize_task_categories_list_of_wf (cats : List String)
    (hne : cats ≠ [])
    (hwf : ∀ c ∈ cats, wfCatName c = true)
    (hdist : pairwiseCiDistinct cats = true) :
    normalize_task_categories (PyVal.list cats) = cats := by
  unfold normalize_task_categories
  simp only [if_pos rfl]
  exact normalize_category_list_of_wf cats hne hwf hdist

theorem splitCharList_joinChar_of_no_sep (sep : Char) :
    ∀ ls : List (List Char), ls ≠ [] → (∀ l ∈ ls, sep ∉ l) →
      splitCharList sep (joinChar sep ls) = ls := by
  intro ls
  induction ls with
  | nil => intro h; exact absurd rfl h
  | cons x ys ih =>
    intro _ hno
    cases ys with
    | nil =>
      show splitCharList sep (joinChar sep [x]) = [x]
      exact splitCharList_no_sep sep x (hno x (List.mem_cons_self x []))
    | cons y rest =>
      rw [joinChar_cons_cons]
      rw [splitCharList_append sep x _ (hno x (List.mem_cons_self x _))]
      congr 1
      exact ih (by simp) (fun l hl => hno l (List.mem_cons_of_mem x hl))

theorem normalize_task_categories_str_of_wf (cats : List String)
    (hne : cats ≠ [])
    (hwf : ∀ c ∈ cats, wfCatName c = true)
    (hdist : pairwiseCiDistinct cats = true) :
    normalize_task_categories
      (PyVal.str (String.mk (joinChar ',' (cats.map String.toList)))) = cats := by
  have hsplit : splitCharList ',' (joinChar ',' (cats.map String.toList)) =
      cats.map String.toList := by
    apply splitCharList_joinChar_of_no_sep
    · simpa using hne
    · intro l hl
      rcases List.mem_map.mp hl with ⟨c, hc, rfl⟩
      intro hcomma
      exact ((wfCatName_spec c (hwf c hc)).2.1 ',' hcomma).2.1 rfl
  have hitems : splitStr ',' (String.mk (joinChar ',' (cats.map String.toList))) = cats := by
    unfold splitStr
    rw [toList_mk, hsplit, List.map_map]
    have : ∀ x ∈ cats, (String.mk ∘ String.toList) x = id x := by
      intro x _
      simp [Function.comp, mk_toList]
    rw [List.map_congr_left this]
    simp
  have hclean : cleanCats [] cats = cats :=
    cleanCats_id cats [] hwf hdist (by intro c _ h; cases h)
  unfold normalize_task_categories
  rw [if_pos rfl]
  unfold normalize_category_list
  simp only [hitems, hclean]
  rw [if_neg hne]

theorem is_date_chars (d : String) (h : is_date d = true) :
    ∀ c ∈ d.toList, c.isDigit = true ∨ c = '-' := by
  unfold is_date at h
  split at h
  · next a b c d' e f g h' i j heq =>
    simp only [Bool.and_eq_true] at h
    obtain ⟨⟨⟨⟨⟨⟨⟨⟨⟨h1, h2⟩, h3⟩, h4⟩, h5⟩, h6⟩, h7⟩, h8⟩, h9⟩, h10⟩ := h
    intro ch hch
    rw [heq] at hch
    simp only [List.mem_cons, List.not_mem_nil, or_false] at hch
    rcases hch with rfl | rfl | rfl | rfl | rfl | rfl | rfl | rfl | rfl | rfl
    · exact Or.inl h1
    · exact Or.inl h2
    · exact Or.inl h3
    · exact Or.inl h4
    · exact Or.inr (by simpa using h5)
    · exact Or.inl h6
    · exact Or.inl h7
    · exact Or.inr (by simpa using h8)
    · exact Or.inl h9
    · exact Or.inl h10
  · simp at h

theorem digit_or_dash_not_space (c : Char) (h : c.isDigit = true ∨ c = '-') :
    pyIsSpace c = false := by
  have hn : (48 ≤ c.toNat ∧ c.toNat ≤ 57) ∨ c.toNat = 45 := by
    rcases h with h | rfl
    · left
      simp only [Char.isDigit, Bool.and_eq_true, decide_eq_true_eq] at h
      obtain ⟨h1, h2⟩ := h
      exact ⟨by exact_mod_cast h1, by exact_mod_cast h2⟩
    · right; rfl
  unfold pyIsSpace
  rw [decide_eq_false_iff_not]
  intro hsp
  rcases hn with ⟨h1, h2⟩ | h3 <;> omega

theorem is_date_ne_nil (d : String) (h : is_date d = true) : d.toList ≠ [] := by
  unfold is_date at h
  split at h
  · next heq => rw [heq]; simp
  · simp at h

theorem is_date_strip (d : String) (h : is_date d = true) :
    pyStripL d.toList = d.toList := by
  apply pyStripL_of_ends
  · cases hc : d.toList with
    | nil => exact absurd hc (is_date_ne_nil d h)
    | cons a t =>
      simp only [List.headD_cons]
      exact digit_or_dash_not_space a (is_date_chars d h a (by rw [hc]; simp))
  · cases hc : d.toList with
    | nil => exact absurd hc (is_date_ne_nil d h)
    | cons a t =>
      have hmem : (a :: t).getLastD '.' ∈ a :: t := by
        rw [List.getLastD_eq_getLast?]
        rw [List.getLast?_eq_getLast (a :: t) (by simp)]
        simp only [Option.getD_some]
        exact List.getLast_mem _
      exact digit_or_dash_not_space _ (is_date_chars d h _ (by rw [hc]; exact hmem))

theorem wfTask_spec (t : Task) (h : wfTask t = true) :
    wfField t.status = true ∧ wfField t.priority = true ∧ wfField t.date = true ∧
    wfDue t.due_date = true ∧ t.categories ≠ [] ∧
    (∀ c ∈ t.categories, wfCatName c = true) ∧ pairwiseCiDistinct t.categories = true ∧
    wfDesc t.description = true ∧ wfRem t.closing_remarks = true := by
  unfold wfTask at h
  simp only [Bool.and_eq_true, List.all_eq_true, Bool.not_eq_true'] at h
  obtain ⟨⟨⟨⟨⟨⟨⟨⟨h1, h2⟩, h3⟩, h4⟩, h5⟩, h6⟩, h7⟩, h8⟩, h9⟩ := h
  exact ⟨h1, h2, h3, h4, by simpa [List.isEmpty_iff] using h5, h6, h7, h8, h9⟩

theorem wfField_spec (s : String) (h : wfField s = true) :
    ∀ c ∈ s.toList, c ≠ '|' ∧ c ≠ ')' ∧ c ≠ '\n' ∧ c ≠ '\r' := by
  unfold wfField at h
  simp only [List.all_eq_true, Bool.and_eq_true, Bool.not_eq_true',
    decide_eq_false_iff_not] at h
  intro c hc
  obtain ⟨⟨⟨h1, h2⟩, h3⟩, h4⟩ := h c hc
  exact ⟨h1, h2, h3, h4⟩

theorem headerChars_of_wf (t : Task) (h : wfTask t = true) :
    headerChars t = '(' :: hdrBody t ++ [')'] := by
  obtain ⟨_, _, _, _, hcne, hcwf, hcdist, _, _⟩ := wfTask_spec t h
  have hcats : normalize_task_categories (PyVal.list t.categories) = t.categories :=
    normalize_task_categories_list_of_wf t.categories hcne hcwf hcdist
  rw [headerChars_eq_extended]
  unfold extendedHeaderChars hdrBody dueSegChars catsChars
  rw [hcats]
  simp [List.append_assoc]

theorem dueSegChars_chars (t : Task) (h : wfDue t.due_date = true) :
    ∀ c ∈ dueSegChars t, c.isDigit = true ∨ c = '-' := by
  intro c hc
  unfold dueSegChars at hc
  cases hd : t.due_date with
  | none =>
    rw [hd] at hc
    simp at hc
  | some d =>
    rw [hd] at hc h
    unfold wfDue at h
    simp only at h
    by_cases hds : d = ""
    · simp only [hds, if_pos] at hc
      simp at hc
    · simp only [hds, if_neg] at hc
      exact is_date_chars d h c hc

theorem catsChars_chars (t : Task) (hcwf : ∀ c ∈ t.categories, wfCatName c = true) :
    ∀ ch ∈ catsChars t, ch = ',' ∨
      (isDelimCat ch = false ∧ ch ≠ ',' ∧ ch ≠ '\n' ∧ ch ≠ '\r') := by
  intro ch hch
  unfold catsChars at hch
  rcases mem_joinChar hch with hc | ⟨l, hl, hcl⟩
  · exact Or.inl hc
  · rcases List.mem_map.mp hl with ⟨c, hc2, rfl⟩
    exact Or.inr ((wfCatName_spec c (hcwf c hc2)).2.1 ch hcl)

theorem hdrBody_chars (t : Task) (h : wfTask t = true) :
    ∀ c ∈ hdrBody t, c ≠ ')' ∧ c ≠ '\n' := by
  obtain ⟨hs, hp, hdt, hdue, _, hcwf, _, _, _⟩ := wfTask_spec t h
  intro c hc
  unfold hdrBody at hc
  rcases List.mem_append.mp hc with hc | h4
  rotate_left
  · rcases List.mem_cons.mp h4 with rfl | h4
    · exact ⟨by decide, by decide⟩
    · rcases catsChars_chars t hcwf c h4 with hcomma | ⟨hc1, _, hc3, _⟩
      · subst hcomma; exact ⟨by decide, by decide⟩
      · constructor
        · intro hcc; rw [hcc] at hc1; exact absurd hc1 (by decide)
        · exact hc3
  rcases List.mem_append.mp hc with hc | h3
  rotate_left
  · rcases List.mem_cons.mp h3 with rfl | h3
    · exact ⟨by decide, by decide⟩
    · rcases dueSegChars_chars t hdue c h3 with hdig | hdash
      · constructor
        · intro hcc; rw [hcc] at hdig; exact absurd hdig (by decide)
        · intro hcc; rw [hcc] at hdig; exact absurd hdig (by decide)
      · subst hdash; exact ⟨by decide, by decide⟩
  rcases List.mem_append.mp hc with hc | h2
  rotate_left
  · rcases List.mem_cons.mp h2 with rfl | h2
    · exact ⟨by decide, by decide⟩
    · exact ⟨(wfField_spec _ hdt c h2).2.1, (wfField_spec _ hdt c h2).2.2.1⟩
  rcases List.mem_append.mp hc with h0 | h1
  · exact ⟨(wfField_spec _ hs c h0).2.1, (wfField_spec _ hs c h0).2.2.1⟩
  · rcases List.mem_cons.mp h1 with rfl | h1
    · exact ⟨by decide, by decide⟩
    · exact ⟨(wfField_spec _ hp c h1).2.1, (wfField_spec _ hp c h1).2.2.1⟩

theorem hdrBody_no_pipe_parts (t : Task) (h : wfTask t = true) :
    ('|' ∉ t.status.toList) ∧ ('|' ∉ t.priority.toList) ∧ ('|' ∉ t.date.toList) ∧
    ('|' ∉ dueSegChars t) ∧ ('|' ∉ catsChars t) := by
  obtain ⟨hs, hp, hdt, hdue, _, hcwf, _, _, _⟩ := wfTask_spec t h
  refine ⟨?_, ?_, ?_, ?_, ?_⟩
  · intro hc; exact (wfField_spec _ hs '|' hc).1 rfl
  · intro hc; exact (wfField_spec _ hp '|' hc).1 rfl
  · intro hc; exact (wfField_spec _ hdt '|' hc).1 rfl
  · intro hc
    rcases dueSegChars_chars t hdue '|' hc with hdig | hdash
    · exact absurd hdig (by decide)
    · exact absurd hdash (by decide)
  · intro hc
    rcases catsChars_chars t hcwf '|' hc with hcomma | ⟨h1, _⟩
    · exact absurd hcomma (by decide)
    · exact absurd h1 (by decide)

theorem splitCharList_hdrBody (t : Task) (h : wfTask t = true) :
    splitCharList '|' (hdrBody t) =
      [t.status.toList, t.priority.toList, t.date.toList, dueSegChars t, catsChars t] := by
  obtain ⟨h1, h2, h3, h4, h5⟩ := hdrBody_no_pipe_parts t h
  unfold hdrBody
  simp only [List.cons_append, List.append_assoc]
  rw [splitCharList_append '|' _ _ h1, splitCharList_append '|' _ _ h2,
    splitCharList_append '|' _ _ h3, splitCharList_append '|' _ _ h4,
    splitCharList_no_sep '|' _ h5]

theorem matchTaskPattern_header (hdr : List Char) (a : Char) (t0 : List Char)
    (hhdr : ∀ c ∈ hdr, c ≠ ')') (hne : hdr ≠ []) (hsp : pyIsSpace a = false) :
    matchTaskPattern ('(' :: hdr ++ ')' :: ' ' :: a :: t0) = Option.some (hdr, a :: t0) := by
  unfold matchTaskPattern matchParenHeader
  have htake := takeWhile_append_stop (fun c => c != ')') hdr ')' (' ' :: a :: t0)
    (fun c hc => by simpa using hhdr c hc) (by decide)
  have htw : (' ' :: a :: t0).takeWhile pyIsSpace = [' '] := by
    rw [List.takeWhile_cons]
    simp only [show pyIsSpace ' ' = true from rfl, if_true]
    rw [List.takeWhile_cons]
    simp [hsp]
  simp only [List.cons_append]
  rw [htake.1, htake.2]
  show (if hdr = [] then Option.none
    else
      if (List.takeWhile pyIsSpace (' ' :: a :: t0)).length = 0 then Option.none
      else
        if (List.takeWhile pyIsSpace (' ' :: a :: t0)).length = (' ' :: a :: t0).length then
          if 2 ≤ (List.takeWhile pyIsSpace (' ' :: a :: t0)).length then
            Option.some (hdr,
              List.drop ((List.takeWhile pyIsSpace (' ' :: a :: t0)).length - 1) (' ' :: a :: t0))
          else Option.none
        else
          Option.some (hdr,
            List.drop (List.takeWhile pyIsSpace (' ' :: a :: t0)).length (' ' :: a :: t0))) =
    Option.some (hdr, a :: t0)
  rw [if_neg hne, htw]
  simp

theorem matchTaskPattern_fourSpaces (l : List Char) :
    matchTaskPattern (fourSpaces ++ l) = Option.none := rfl

theorem matchLegacyPattern_fourSpaces (l : List Char) :
    matchLegacyPattern (fourSpaces ++ l) = Option.none := rfl

theorem matchTaskPattern_remarkTag (l : List Char) :
    matchTaskPattern (remarkTag ++ l) = Option.none := rfl

theorem matchLegacyPattern_remarkTag (l : List Char) :
    matchLegacyPattern (remarkTag ++ l) = Option.none := rfl

theorem drop4_fourSpaces (l : List Char) : (fourSpaces ++ l).drop 4 = l := rfl

theorem drop22_remarkTag (l : List Char) : (remarkTag ++ l).drop 22 = l := rfl

theorem hasLead_fourSpaces_self (l : List Char) :
    hasLead fourSpaces (fourSpaces ++ l) = true :=
  hasLead_append_self _ _

theorem hasLead_fourSpaces_remarkTag (l : List Char) :
    hasLead fourSpaces (remarkTag ++ l) = true :=
  hasLead_append_self fourSpaces (remCore ++ l)

theorem hasLead_remarkTag_self (l : List Char) :
    hasLead remarkTag (remarkTag ++ l) = true :=
  hasLead_append_self _ _

theorem hasLead_remarkTag_fourSpaces (l : List Char) :
    hasLead remarkTag (fourSpaces ++ l) = hasLead remCore l :=
  hasLead_append_left fourSpaces remCore l

theorem parse_step_remark_start (today : String) (l : List Char) (rest : List (List Char))
    (c : Task) (p : Nat) (inC : Bool) (n : Nat) :
    parseLines today ((remarkTag ++ l) :: rest) (Option.some c) p inC n =
      parseLines today rest (Option.some (withRemStart c l)) p true n := by
  simp only [parseLines, matchTaskPattern_remarkTag, matchLegacyPattern_remarkTag,
    hasLead_fourSpaces_remarkTag, hasLead_remarkTag_self, drop22_remarkTag, if_true,
    withRemStart]
  rw [if_neg (by simp)]

theorem parse_step_cont_rem (today : String) (l : List Char) (rest : List (List Char))
    (c : Task) (p : Nat) (n : Nat) (h : hasLead remCore l = false) :
    parseLines today ((fourSpaces ++ l) :: rest) (Option.some c) p true n =
      parseLines today rest (Option.some (withRemAppend c l)) p true n := by
  simp only [parseLines, matchTaskPattern_fourSpaces, matchLegacyPattern_fourSpaces,
    hasLead_fourSpaces_self, hasLead_remarkTag_fourSpaces, h, drop4_fourSpaces,
    Bool.false_eq_true, if_false, if_true, withRemAppend]
  rw [if_neg (by simp)]

theorem parse_step_cont_desc (today : String) (l : List Char) (rest : List (List Char))
    (c : Task) (p : Nat) (n : Nat) (h : hasLead remCore l = false) :
    parseLines today ((fourSpaces ++ l) :: rest) (Option.some c) p false n =
      parseLines today rest (Option.some (withDescAppend c l)) p false n := by
  simp only [parseLines, matchTaskPattern_fourSpaces, matchLegacyPattern_fourSpaces,
    hasLead_fourSpaces_self, hasLead_remarkTag_fourSpaces, h, drop4_fourSpaces,
    Bool.false_eq_true, if_false, if_true, withDescAppend]
  rw [if_neg (by simp)]

theorem parse_cont_desc_list (today : String) :
    ∀ (ls : List (List Char)) (rest : List (List Char)) (c : Task) (p n : Nat),
      (∀ l ∈ ls, hasLead remCore l = false) →
      parseLines today (ls.map (fun l => fourSpaces ++ l) ++ rest) (Option.some c) p false n =
        parseLines today rest (Option.some (ls.foldl withDescAppend c)) p false n := by
  intro ls
  induction ls with
  | nil => intro rest c p n _; rfl
  | cons l ls ih =>
    intro rest c p n h
    rw [List.map_cons, List.cons_append]
    rw [parse_step_cont_desc today l _ c p n (h l (List.mem_cons_self l ls))]
    rw [ih rest (withDescAppend c l) p n (fun x hx => h x (List.mem_cons_of_mem l hx))]
    rfl

theorem parse_cont_rem_list (today : String) :
    ∀ (ls : List (List Char)) (rest : List (List Char)) (c : Task) (p n : Nat),
      (∀ l ∈ ls, hasLead remCore l = false) →
      parseLines today (ls.map (fun l => fourSpaces ++ l) ++ rest) (Option.some c) p true n =
        parseLines today rest (Option.some (ls.foldl withRemAppend c)) p true n := by
  intro ls
  induction ls with
  | nil => intro rest c p n _; rfl
  | cons l ls ih =>
    intro rest c p n h
    rw [List.map_cons, List.cons_append]
    rw [parse_step_cont_rem today l _ c p n (h l (List.mem_cons_self l ls))]
    rw [ih rest (withRemAppend c l) p n (fun x hx => h x (List.mem_cons_of_mem l hx))]
    rfl

theorem foldl_withDescAppend (ls : List (List Char)) :
    ∀ c : Task,
      ls.foldl withDescAppend c =
        { c with description :=
            String.mk (c.description.toList ++ (ls.map (fun l => '\n' :: l)).flatten) } := by
  induction ls with
  | nil =>
    intro c
    simp [mk_toList]
  | cons l ls ih =>
    intro c
    rw [List.foldl_cons, ih (withDescAppend c l)]
    cases c
    simp [withDescAppend, toList_append, List.append_assoc]

theorem foldl_withRemAppend (ls : List (List Char)) :
    ∀ (c : Task) (r : String), c.closing_remarks = Option.some r →
      ls.foldl withRemAppend c =
        { c with closing_remarks :=
            Option.some (String.mk (r.toList ++ (ls.map (fun l => '\n' :: l)).flatten)) } := by
  induction ls with
  | nil =>
    intro c r hr
    rw [List.foldl_nil]
    rw [show (([] : List (List Char)).map (fun l => '\n' :: l)).flatten = [] from rfl]
    rw [List.append_nil, mk_toList, ← hr]
  | cons l ls ih =>
    intro c r hr
    rw [List.foldl_cons]
    have hrem : (withRemAppend c l).closing_remarks =
        Option.some (r ++ "\n" ++ String.mk l) := by
      simp [withRemAppend, hr]
    rw [ih (withRemAppend c l) (r ++ "\n" ++ String.mk l) hrem]
    have hnl : ("\n" : String).toList = ['\n'] := rfl
    simp only [withRemAppend, hr, Option.getD_some]
    simp [toList_append, List.append_assoc, toList_mk, hnl]

theorem joinChar_eq_flatten (sep : Char) (x : List Char) :
    ∀ ls : List (List Char),
      joinChar sep (x :: ls) = x ++ (ls.map (fun l => sep :: l)).flatten := by
  intro ls
  induction ls generalizing x with
  | nil => simp [joinChar]
  | cons y ys ih =>
    rw [joinChar_cons_cons, ih y]
    simp [List.append_assoc]

theorem hdrBody_ne_nil (t : Task) : hdrBody t ≠ [] := by
  unfold hdrBody
  simp

theorem taskLines_eq (t : Task) :
    taskLines t =
      (headerChars t ++ ' ' :: (splitCharList '\n' t.description.toList).headD []) ::
        (((splitCharList '\n' t.description.toList).drop 1).map (fun l => fourSpaces ++ l) ++
          remLinesOf t) := by
  unfold taskLines remLinesOf
  simp

theorem wfRem_none_of_getD_empty (cr : Option String) (h : wfRem cr = true)
    (he : cr.getD "" = "") : cr = Option.none := by
  cases cr with
  | none => rfl
  | some r =>
    simp only [Option.getD_some] at he
    subst he
    simp [wfRem] at h

theorem getD_some_of_ne_empty (cr : Option String) (he : cr.getD "" ≠ "") :
    cr = Option.some (cr.getD "") := by
  cases cr with
  | none => simp at he
  | some r => rfl

theorem buildCurrentTask_of_wf (t : Task) (h : wfTask t = true) (n : Nat) (desc : List Char) :
    buildCurrentTask n
        [t.status.toList, t.priority.toList, t.date.toList, dueSegChars t, catsChars t] desc =
      { id := n, status := t.status, priority := t.priority, date := t.date,
        due_date := t.due_date, description := String.mk desc,
        categories := t.categories, closing_remarks := Option.none } := by
  obtain ⟨_, _, _, hdue, hcne, hcwf, hcdist, _, _⟩ := wfTask_spec t h
  have hcats : normalize_task_categories
      (PyVal.str (String.mk (joinChar '|' [catsChars t]))) = t.categories := by
    show normalize_task_categories (PyVal.str (String.mk (catsChars t))) = t.categories
    exact normalize_task_categories_str_of_wf t.categories hcne hcwf hcdist
  unfold buildCurrentTask
  cases hd : t.due_date with
  | none =>
    have hseg : dueSegChars t = [] := by
      unfold dueSegChars
      rw [hd]
    simp only [hseg, List.getD, mk_toList]
    simp [pyStripL_nil, hcats]
  | some d =>
    rw [hd] at hdue
    unfold wfDue at hdue
    simp only at hdue
    have hdne : d.toList ≠ [] := is_date_ne_nil d hdue
    have hdne2 : d ≠ "" := by
      intro hd0
      rw [hd0] at hdne
      exact hdne rfl
    have hseg : dueSegChars t = d.toList := by
      unfold dueSegChars
      rw [hd]
      simp [hdne2]
    have hstrip : pyStripL d.toList = d.toList := is_date_strip d hdue
    simp only [hseg]
    have hstrip2 : pyStripL d.data = d.data := hstrip
    have hdne3 : d.data ≠ [] := hdne
    have hmkd : String.mk d.data = d := mk_toList d
    simp [List.getD, hstrip2, hdne3, hmkd, hdue, hcats]

theorem buildCurrentTask_of_wf2 (t : Task) (h : wfTask t = true) (n : Nat) (desc : List Char) :
    buildCurrentTask n
        [t.status.toList, t.priority.toList, t.date.toList, dueSegChars t, catsChars t] desc =
      initTask t n desc :=
  buildCurrentTask_of_wf t h n desc

theorem assembled_task_eq (t : Task) (n : Nat) (cr : Option String)
    (hcr : cr = t.closing_remarks) :
    ({ id := n, status := t.status, priority := t.priority, date := t.date,
       due_date := t.due_date, description := t.description,
       categories := t.categories, closing_remarks := cr } : Task) = { t with id := n } := by
  subst hcr
  cases t
  rfl

theorem parse_block (today : String) (t : Task) (h : wfTask t = true)
    (rest : List (List Char)) (cur : Option Task) (p : Nat) (inC : Bool) (n : Nat) :
    parseLines today (taskLines t ++ rest) cur p inC n =
      emitCur cur p ++
        parseLines today rest (Option.some { t with id := n }) 0
          (if t.closing_remarks.getD "" = "" then false else true) (n + 1) := by
  obtain ⟨hs, hp, hdt, hdue, hcne, hcwf, hcdist, hdesc, hrem⟩ := wfTask_spec t h
  unfold wfDesc at hdesc
  simp only [Bool.and_eq_true, Bool.not_eq_true', List.all_eq_true] at hdesc
  obtain ⟨⟨⟨hL0ne, hL0sp⟩, hcont⟩, _⟩ := hdesc
  cases hdl : splitCharList '\n' t.description.toList with
  | nil => exact absurd hdl (splitCharList_ne_nil _ _)
  | cons L0 ds =>
  rw [hdl] at hL0ne hL0sp hcont
  simp only [List.headD_cons, List.drop_succ_cons, List.drop_zero] at hL0ne hL0sp hcont
  cases hL0 : L0 with
  | nil =>
    rw [hL0] at hL0ne
    simp at hL0ne
  | cons a t0 =>
  rw [hL0] at hL0sp
  simp only [List.headD_cons] at hL0sp
  rw [taskLines_eq t, hdl]
  simp only [List.headD_cons, List.drop_succ_cons, List.drop_zero]
  rw [hL0, headerChars_of_wf t h]
  simp only [List.cons_append, List.append_assoc, List.singleton_append, List.nil_append]
  have hstripNe : pyStripL ('(' :: (hdrBody t ++ ')' :: ' ' :: a :: t0)) ≠ [] :=
    pyStripL_ne_nil_of_head _ _ (by decide)
  have hmatch : matchTaskPattern ('(' :: (hdrBody t ++ ')' :: ' ' :: a :: t0)) =
      Option.some (hdrBody t, a :: t0) := by
    have hm := matchTaskPattern_header (hdrBody t) a t0
      (fun c hc => (hdrBody_chars t h c hc).1) (hdrBody_ne_nil t) hL0sp
    simpa [List.cons_append, List.append_assoc] using hm
  simp only [parseLines]
  rw [if_neg (fun hand => hstripNe hand.1)]
  rw [hmatch]
  simp only [splitCharList_hdrBody t h]
  rw [if_pos (by simp)]
  rw [buildCurrentTask_of_wf2 t h n (a :: t0)]
  rw [parse_cont_desc_list today ds _ (initTask t n (a :: t0)) 0 (n + 1) hcont]
  rw [foldl_withDescAppend ds (initTask t n (a :: t0))]
  simp only [initTask, toList_mk]
  have hdesc_eq : (a :: t0) ++ (ds.map (fun l => '\n' :: l)).flatten =
      t.description.toList := by
    rw [← joinChar_eq_flatten '\n' (a :: t0) ds, ← hL0, ← hdl, joinChar_splitCharList]
  rw [hdesc_eq, mk_toList]
  by_cases hclos : t.closing_remarks.getD "" = ""
  · have hnone : t.closing_remarks = Option.none := wfRem_none_of_getD_empty _ hrem hclos
    have hrml : remLinesOf t = [] := by
      unfold remLinesOf
      rw [if_pos hclos]
    rw [hrml, List.nil_append, if_pos hclos]
    rw [assembled_task_eq t n Option.none hnone.symm]
  · have hsome : t.closing_remarks = Option.some (t.closing_remarks.getD "") :=
      getD_some_of_ne_empty _ hclos
    have hrem2 := hrem
    rw [hsome] at hrem2
    unfold wfRem at hrem2
    simp only [Bool.and_eq_true, Bool.not_eq_true', List.all_eq_true] at hrem2
    obtain ⟨⟨_, hremlines⟩, _⟩ := hrem2
    cases hrls : splitCharList '\n' (t.closing_remarks.getD "").toList with
    | nil => exact absurd hrls (splitCharList_ne_nil _ _)
    | cons R0 rs =>
    rw [hrls] at hremlines
    simp only [List.drop_succ_cons, List.drop_zero] at hremlines
    have hrml : remLinesOf t =
        (remarkTag ++ R0) :: rs.map (fun l => fourSpaces ++ l) := by
      unfold remLinesOf
      rw [if_neg hclos, hrls]
      simp
    rw [hrml, List.cons_append]
    rw [parse_step_remark_start]
    rw [parse_cont_rem_list today rs _ _ 0 (n + 1) hremlines]
    have hfold := foldl_withRemAppend rs (withRemStart (assembledBase t n) R0)
      (String.mk R0) rfl
    simp only [assembledBase] at hfold
    rw [hfold]
    simp only [withRemStart, toList_mk]
    have hrem_eq : R0 ++ (rs.map (fun l => '\n' :: l)).flatten =
        (t.closing_remarks.getD "").toList := by
      rw [← joinChar_eq_flatten '\n' R0 rs, ← hrls, joinChar_splitCharList]
    rw [hrem_eq, mk_toList]
    rw [if_neg hclos]
    rw [assembled_task_eq t n (Option.some (t.closing_remarks.getD "")) hsome.symm]

theorem mem_headD_of_ne_nil {α : Type} (l : List α) (d : α) (h : l ≠ []) :
    l.headD d ∈ l := by
  cases l with
  | nil => exact absurd rfl h
  | cons a t => simp

theorem taskLines_no_newline (t : Task) (h : wfTask t = true) :
    ∀ l ∈ taskLines t, '\n' ∉ l := by
  have hpiece : ∀ (s : List Char) (p : List Char),
      p ∈ splitCharList '\n' s → '\n' ∉ p := fun s => splitCharList_piece_no_sep '\n' s
  have hhead : ∀ s : List Char, '\n' ∉ (splitCharList '\n' s).headD [] := fun s =>
    hpiece s _ (mem_headD_of_ne_nil _ _ (splitCharList_ne_nil '\n' s))
  have hdropmap : ∀ (s : List Char) (l : List Char),
      l ∈ ((splitCharList '\n' s).drop 1).map (fun x => fourSpaces ++ x) → '\n' ∉ l := by
    intro s l hl hmem
    rw [List.mem_map] at hl
    obtain ⟨x, hx, hlx⟩ := hl
    rw [← hlx] at hmem
    rcases List.mem_append.mp hmem with h4 | hx2
    · exact absurd h4 (by decide)
    · exact hpiece s x (List.mem_of_mem_drop hx) hx2
  intro l hl
  rw [taskLines_eq t] at hl
  rcases List.mem_cons.mp hl with hl | hl
  · subst hl
    intro hmem
    rw [headerChars_of_wf t h] at hmem
    rcases List.mem_append.mp hmem with hh | hd
    · rcases List.mem_cons.mp hh with h1 | hh
      · exact absurd h1 (by decide)
      rcases List.mem_append.mp hh with hb | h2
      · exact (hdrBody_chars t h '\n' hb).2 rfl
      · exact absurd h2 (by decide)
    · rcases List.mem_cons.mp hd with h3 | hd
      · exact absurd h3 (by decide)
      · exact hhead t.description.toList hd
  · rcases List.mem_append.mp hl with hl | hl
    · exact hdropmap t.description.toList l hl
    · unfold remLinesOf at hl
      by_cases hclos : t.closing_remarks.getD "" = ""
      · rw [if_pos hclos] at hl
        cases hl
      · rw [if_neg hclos] at hl
        rcases List.mem_cons.mp hl with hl | hl
        · subst hl
          intro hmem
          rcases List.mem_append.mp hmem with ht | hr
          · exact absurd ht (by decide)
          · exact hhead (t.closing_remarks.getD "").toList hr
        · exact hdropmap (t.closing_remarks.getD "").toList l hl

theorem splitCharList_joinFileLines (LS : List (List Char))
    (h : ∀ l ∈ LS, '\n' ∉ l) :
    splitCharList '\n' (joinFileLines LS) = LS ++ [[]] := by
  induction LS with
  | nil => rfl
  | cons l ls ih =>
    have hl : '\n' ∉ l := h l (List.mem_cons_self l ls)
    have hls := ih (fun x hx => h x (List.mem_cons_of_mem l hx))
    show splitCharList '\n' (l ++ '\n' :: joinFileLines ls) = (l :: ls) ++ [[]]
    rw [splitCharList_append '\n' l (joinFileLines ls) hl, hls]
    rfl

theorem parse_final_line (today : String) (cur : Option Task) (p : Nat) (inC : Bool)
    (n : Nat) :
    parseLines today [[]] cur p inC n = emitCur cur p := by
  cases cur with
  | none => rfl
  | some c => rfl

theorem parse_blocks (today : String) :
    ∀ (T : List Task), (∀ t ∈ T, wfTask t = true) →
    ∀ (cur : Option Task) (p : Nat) (inC : Bool) (n : Nat),
      parseLines today ((T.map taskLines).flatten ++ [[]]) cur p inC n =
        emitCur cur p ++ withIds T n := by
  intro T
  induction T with
  | nil =>
    intro _ cur p inC n
    simp only [List.map_nil, List.flatten_nil, List.nil_append, withIds, List.append_nil]
    exact parse_final_line today cur p inC n
  | cons t ts ih =>
    intro hT cur p inC n
    have ht : wfTask t = true := hT t (List.mem_cons_self t ts)
    have hts : ∀ x ∈ ts, wfTask x = true := fun x hx => hT x (List.mem_cons_of_mem t hx)
    simp only [List.map_cons, List.flatten_cons, List.append_assoc]
    rw [parse_block today t ht ((ts.map taskLines).flatten ++ [[]]) cur p inC n]
    rw [ih hts]
    simp [emitCur, withIds, List.replicate]

theorem withIds_of_seq :
    ∀ (T : List Task) (n : Nat), idsSequentialFrom n T = true → withIds T n = T := by
  intro T
  induction T with
  | nil => intro n _; rfl
  | cons t ts ih =>
    intro n h
    simp only [idsSequentialFrom, Bool.and_eq_true, decide_eq_true_eq] at h
    obtain ⟨h1, h2⟩ := h
    show ({ t with id := n } : Task) :: withIds ts (n + 1) = t :: ts
    rw [ih (n + 1) h2]
    rw [← h1]

/-- C1 (amended).  Codec round-trip under the well-formedness invariants
the encoder actually preserves: every task has well-formed single-line
status, priority and date fields, an absent or YYYY-MM-DD-shaped due
date, nonempty categories whose names are free of the category-delimiter
characters (including the comma the encoder joins with), case-insensitively
distinct, trimmed (with respect to Python's full Unicode whitespace
class, the set str.strip() and the regex \s test) and not dash-led, a
description whose first line is nonempty and starts with a character
outside that whitespace class and whose later lines do not start with
the closing-remarks marker, absent-or-nonempty closing remarks with the
same marker restriction, no carriage returns anywhere, and ids
sequential from 0.  For every such ledger T and every current
date, parse_tasks applied to the text written by save_tasks T returns T
exactly, including multi-line descriptions and closing remarks. -/
theorem C1_roundtrip (today : String) (T : List Task) (h : wellFormedLedger T = true) :
    parse_tasks today (save_tasks T) = T := by
  unfold wellFormedLedger at h
  simp only [Bool.and_eq_true, List.all_eq_true] at h
  obtain ⟨hseq, hwf⟩ := h
  unfold parse_tasks save_tasks
  rw [toList_mk]
  have hnl : ∀ l ∈ (T.map taskLines).flatten, '\n' ∉ l := by
    intro l hl
    rw [List.mem_flatten] at hl
    obtain ⟨L, hL, hlL⟩ := hl
    rw [List.mem_map] at hL
    obtain ⟨t, htT, hLt⟩ := hL
    exact taskLines_no_newline t (hwf t htT) l (hLt ▸ hlL)
  rw [splitCharList_joinFileLines _ hnl]
  rw [parse_blocks today T hwf Option.none 0 false 0]
  rw [show emitCur Option.none 0 = [] from rfl, List.nil_append]
  exact withIds_of_seq T 0 hseq

theorem C1_roundtrip_witness :
    wellFormedLedger [rtTask0, rtTask1] = true ∧
      parse_tasks "2024-03-01" (save_tasks [rtTask0, rtTask1]) = [rtTask0, rtTask1] :=
  ⟨by decide, C1_roundtrip "2024-03-01" [rtTask0, rtTask1] (by decide)⟩

end Taskman
